import Mathlib

/-!
Verification of the paystub-analyzer extraction/reconciliation pipeline.

Shallow embedding of the Python sources:
  * `paystub_analyzer/core.py` (money tokenizing, line normalization,
    this-period/YTD disambiguation),
  * `paystub_analyzer/annual.py` (state-YTD repair engine, deduplication,
    filer/household report assembly),
  * `paystub_analyzer/filing_rules.py` (filing-safety gate),
  * `paystub_analyzer/utils/corrections.py` (correction merging).

Money is modelled as `ℚ` (the source uses `decimal.Decimal` with exact
arithmetic); `Decimal.quantize(Decimal("0.01"))` with the default
ROUND_HALF_EVEN context is modelled by `quantize2`, and Python's `round`
(banker's rounding) by `pyRound`.
-/

namespace Paystub

/-! Exact rational arithmetic is written with the explicit constructors
`mkRat`/`Rat.divInt` (`qAdd`, `qSub`, `qMul`, `qDiv` below), which the
kernel evaluates directly on concrete inputs; the lemmas `qAdd_eq` …
`qDiv_eq` identify them with the field operations of `ℚ`. -/

theorem ratNumCast (a : ℚ) : (a.num : ℚ) = a * (a.den : ℚ) := by
  have hden : ((a.den : ℚ)) ≠ 0 := by exact_mod_cast a.den_nz
  have h := Rat.num_div_den a
  have h2 : (a.num : ℚ) / (a.den : ℚ) * (a.den : ℚ) = a * (a.den : ℚ) := by rw [h]
  rw [div_mul_cancel₀ _ hden] at h2
  exact h2

def qAdd (a b : ℚ) : ℚ := mkRat (a.num * b.den + b.num * a.den) (a.den * b.den)

def qSub (a b : ℚ) : ℚ := mkRat (a.num * b.den - b.num * a.den) (a.den * b.den)

def qMul (a b : ℚ) : ℚ := mkRat (a.num * b.num) (a.den * b.den)

def qDiv (a b : ℚ) : ℚ := Rat.divInt (a.num * b.den) (a.den * b.num)

theorem qAdd_eq (a b : ℚ) : qAdd a b = a + b := by
  have hA : ((a.den : ℚ)) ≠ 0 := by exact_mod_cast a.den_nz
  have hB : ((b.den : ℚ)) ≠ 0 := by exact_mod_cast b.den_nz
  rw [qAdd, Rat.mkRat_eq_div]
  push_cast
  rw [div_eq_iff (mul_ne_zero hA hB), ratNumCast a, ratNumCast b]
  ring

theorem qSub_eq (a b : ℚ) : qSub a b = a - b := by
  have hA : ((a.den : ℚ)) ≠ 0 := by exact_mod_cast a.den_nz
  have hB : ((b.den : ℚ)) ≠ 0 := by exact_mod_cast b.den_nz
  rw [qSub, Rat.mkRat_eq_div]
  push_cast
  rw [div_eq_iff (mul_ne_zero hA hB), ratNumCast a, ratNumCast b]
  ring

theorem qMul_eq (a b : ℚ) : qMul a b = a * b := by
  have hA : ((a.den : ℚ)) ≠ 0 := by exact_mod_cast a.den_nz
  have hB : ((b.den : ℚ)) ≠ 0 := by exact_mod_cast b.den_nz
  rw [qMul, Rat.mkRat_eq_div]
  push_cast
  rw [div_eq_iff (mul_ne_zero hA hB), ratNumCast a, ratNumCast b]
  ring

theorem qDiv_eq (a b : ℚ) : qDiv a b = a / b := by
  rcases eq_or_ne b 0 with rfl | hb
  · rw [qDiv]
    norm_num [Rat.divInt_eq_div]
  · have hA : ((a.den : ℚ)) ≠ 0 := by exact_mod_cast a.den_nz
    have hBnum : ((b.num : ℚ)) ≠ 0 := by
      exact_mod_cast Rat.num_ne_zero.mpr hb
    rw [qDiv, Rat.divInt_eq_div]
    push_cast
    rw [div_eq_div_iff (mul_ne_zero hA hBnum) hb, ratNumCast a, ratNumCast b]
    ring

/-- Round-half-to-even on rationals: models Python `round(q)` /
`decimal` ROUND_HALF_EVEN at integer precision. -/
def pyRound (q : ℚ) : ℤ :=
  let f : ℤ := ⌊q⌋
  let r : ℚ := qSub q (f : ℚ)
  if r < mkRat 1 2 then f
  else if mkRat 1 2 < r then f + 1
  else if f % 2 = 0 then f else f + 1

/-- Models `Decimal.quantize(Decimal("0.01"))` (round-half-even to 2
decimal places). -/
def quantize2 (q : ℚ) : ℚ :=
  Rat.divInt (pyRound (qMul q 100)) 100

/-- `max` over a nonempty list, folding from the left as Python does;
`none` on the empty list (where Python `max` raises). -/
def maxQ : List ℚ → Option ℚ
  | [] => none
  | x :: rest => some (rest.foldl max x)

/-- A stable insertion sort parameterised by a boolean `le`.  This models
Python's stable `sorted`: for any total preorder `le`, a stable sort is
unique, so the choice of algorithm is immaterial. -/
def stableInsert (le : α → α → Bool) (x : α) : List α → List α
  | [] => [x]
  | y :: ys => if le y x && !(le x y) then y :: stableInsert le x ys else x :: y :: ys

def stableSortBy (le : α → α → Bool) : List α → List α
  | [] => []
  | x :: xs => stableInsert le x (stableSortBy le xs)

theorem stableInsert_perm (le : α → α → Bool) (x : α) (l : List α) :
    (stableInsert le x l).Perm (x :: l) := by
  induction l with
  | nil => simp [stableInsert]
  | cons y ys ih =>
    simp only [stableInsert]
    split
    · exact ((ih.cons y).trans (List.Perm.swap x y ys))
    · exact List.Perm.refl _

theorem stableSortBy_perm (le : α → α → Bool) (l : List α) :
    (stableSortBy le l).Perm l := by
  induction l with
  | nil => simp [stableSortBy]
  | cons x xs ih =>
    exact (stableInsert_perm le x (stableSortBy le xs)).trans (ih.cons x)

/-- Last element of a list with a fallback (models Python `lst[-1]` at
the call sites, which guarantee nonemptiness). -/
def lastD (d : α) : List α → α
  | [] => d
  | [a] => a
  | _ :: b :: bs => lastD d (b :: bs)

theorem lastD_mem (d : α) : ∀ (l : List α), l ≠ [] → lastD d l ∈ l
  | [a], _ => by simp [lastD]
  | a :: b :: bs, _ => by
    rw [show lastD d (a :: b :: bs) = lastD d (b :: bs) from rfl]
    exact List.mem_cons_of_mem a (lastD_mem d (b :: bs) (by simp))

/-- If the condition in `stableInsert` fails, totality forces `le x y`. -/
theorem le_of_not_insert_cond (le : α → α → Bool)
    (htot : ∀ a b, le a b = true ∨ le b a = true) {x y : α}
    (h : ¬((le y x && !(le x y)) = true)) : le x y = true := by
  by_cases hxy : le x y = true
  · exact hxy
  · rcases htot x y with h2 | h2
    · exact h2
    · have hfalse : le x y = false := by
        revert hxy; cases le x y <;> simp
      exact absurd (by simp [h2, hfalse]) h

/-- The head of `stableInsert` is either `x` or the old head. -/
theorem stableInsert_head (le : α → α → Bool) (x : α) :
    ∀ l : List α, (stableInsert le x l).head? = some x ∨
      (stableInsert le x l).head? = l.head? := by
  intro l
  cases l with
  | nil => left; rfl
  | cons y ys =>
    simp only [stableInsert]
    by_cases hcond : (le y x && !(le x y)) = true
    · right; simp [hcond]
    · left; simp [hcond]

/-- Elements of a `stableSortBy` result are pairwise `le`-related provided
`le` is total. -/
theorem stableInsert_sorted (le : α → α → Bool)
    (htot : ∀ a b, le a b = true ∨ le b a = true) (x : α) (l : List α)
    (hl : l.Chain' (fun a b => le a b = true)) :
    (stableInsert le x l).Chain' (fun a b => le a b = true) := by
  induction l with
  | nil => simp [stableInsert]
  | cons y ys ih =>
    have hys : ys.Chain' (fun a b => le a b = true) := hl.tail
    have hhead : ∀ z ∈ ys.head?, le y z = true :=
      (List.chain'_cons'.1 hl).1
    simp only [stableInsert]
    by_cases hcond : (le y x && !(le x y)) = true
    · simp only [hcond, if_true]
      refine List.chain'_cons'.2 ⟨?_, ih hys⟩
      intro z hz
      rcases stableInsert_head le x ys with hh | hh
      · rw [hh] at hz
        simp only [Option.mem_def, Option.some.injEq] at hz
        subst hz
        exact ((Bool.and_eq_true _ _).mp hcond).1
      · rw [hh] at hz
        exact hhead z hz
    · simp only [hcond, if_false]
      refine List.chain'_cons'.2 ⟨?_, hl⟩
      intro z hz
      simp only [List.head?_cons, Option.mem_def] at hz
      cases hz
      exact le_of_not_insert_cond le htot hcond

theorem stableSortBy_sorted (le : α → α → Bool)
    (htot : ∀ a b, le a b = true ∨ le b a = true) (l : List α) :
    (stableSortBy le l).Chain' (fun a b => le a b = true) := by
  induction l with
  | nil => simp [stableSortBy]
  | cons x xs ih => exact stableInsert_sorted le htot x _ ih

/-- In a pairwise-sorted list (with `le` reflexive), every member is
`le` the last element. -/
theorem pairwise_le_lastD (le : α → α → Bool)
    (hrefl : ∀ a, le a a = true) :
    ∀ (l : List α), l.Pairwise (fun a b => le a b = true) →
      ∀ (d y : α), y ∈ l → le y (lastD d l) = true := by
  intro l
  induction l with
  | nil => intro _ _ y hy; cases hy
  | cons a as ih =>
    intro hpw d y hy
    cases as with
    | nil =>
      rcases List.mem_singleton.1 hy with rfl
      exact hrefl y
    | cons c cs =>
      rw [show lastD d (a :: c :: cs) = lastD d (c :: cs) from rfl]
      rcases List.mem_cons.1 hy with rfl | hmem
      · exact (List.pairwise_cons.1 hpw).1 _ (lastD_mem d (c :: cs) (by simp))
      · exact ih (List.pairwise_cons.1 hpw).2 d y hmem

/-- Every member of a list is `le` the last element of its stable sort,
for a total transitive `le`. -/
theorem stableSortBy_lastD_max (le : α → α → Bool)
    (htot : ∀ a b, le a b = true ∨ le b a = true)
    (htrans : ∀ a b c, le a b = true → le b c = true → le a c = true)
    (l : List α) (d : α) (y : α) (hy : y ∈ l) :
    le y (lastD d (stableSortBy le l)) = true := by
  haveI : IsTrans α (fun a b => le a b = true) := ⟨fun a b c => htrans a b c⟩
  have hpw : (stableSortBy le l).Pairwise (fun a b => le a b = true) :=
    List.chain'_iff_pairwise.mp (stableSortBy_sorted le htot l)
  have hrefl : ∀ a, le a a = true := by
    intro a; rcases htot a a with h | h <;> exact h
  exact pairwise_le_lastD le hrefl _ hpw d y
    ((stableSortBy_perm le l).mem_iff.mpr hy)

/-! ## String utilities shared by the embedding -/

/-- Python `\s` (ASCII portion). -/
def isSpaceC (c : Char) : Bool :=
  c = ' ' || c = '\t' || c = '\n' || c = '\r' || c = Char.ofNat 11 || c = Char.ofNat 12

/-- Python word character (`\w`, ASCII portion), used for `\b`. -/
def isWordC (c : Char) : Bool := c.isAlphanum || c = '_'

/-- Python `str.strip()`. -/
def stripChars (cs : List Char) : List Char :=
  ((cs.dropWhile isSpaceC).reverse.dropWhile isSpaceC).reverse

/-- Substring containment (`needle in hay` in Python), structural on `hay`. -/
def containsSub (hay needle : List Char) : Bool :=
  match hay with
  | [] => needle.isEmpty
  | _ :: hs => needle.isPrefixOf hay || containsSub hs needle

def containsStr (hay needle : String) : Bool := containsSub hay.toList needle.toList

/-- Python `str.upper()` (ASCII portion). -/
def upperStr (s : String) : String := String.mk (s.toList.map Char.toUpper)

def digitsToNat (ds : List Char) : ℕ :=
  ds.foldl (fun acc c => acc * 10 + (c.toNat - '0'.toNat)) 0

/-! ## `core.py`: money tokenizing

`MONEY_RE = [+-]?(?:\$|S)?(?:\d{1,3}(?:,\s?\d{3})+|\d+)\.\d{2}` with
IGNORECASE, scanned left to right without overlap (`findall`).  The
matcher below is a direct deterministic implementation of this one
regex (the backtracking analysis is in the comments). -/

/-- One `,\s?\d{3}` thousands group. -/
def oneThousandsGroup (cs : List Char) : Option (List Char × List Char) :=
  match cs with
  | ',' :: rest =>
    match rest with
    | sp :: d1 :: d2 :: d3 :: r =>
      if isSpaceC sp && d1.isDigit && d2.isDigit && d3.isDigit then
        some ([',', sp, d1, d2, d3], r)
      else
        match rest with
        | e1 :: e2 :: e3 :: r2 =>
          if e1.isDigit && e2.isDigit && e3.isDigit then some ([',', e1, e2, e3], r2)
          else none
        | _ => none
    | e1 :: e2 :: e3 :: r2 =>
      if e1.isDigit && e2.isDigit && e3.isDigit then some ([',', e1, e2, e3], r2)
      else none
    | _ => none
  | _ => none

/-- `(?:,\s?\d{3})+` matched greedily; taking fewer repetitions can never
help (the next token would have to start with `.`, but it starts with `,`),
so no backtracking over the count is needed. -/
def thousandsGroups (fuel : ℕ) (cs : List Char) : Option (List Char × List Char) :=
  match fuel with
  | 0 => none
  | fuel + 1 =>
    match oneThousandsGroup cs with
    | none => none
    | some (g, rest) =>
      match thousandsGroups fuel rest with
      | some (g2, rest2) => some (g ++ g2, rest2)
      | none => some (g, rest)

/-- `\.\d{2}`. -/
def dotTwoDigits (cs : List Char) : Option (List Char × List Char) :=
  match cs with
  | '.' :: d1 :: d2 :: r => if d1.isDigit && d2.isDigit then some (['.', d1, d2], r) else none
  | _ => none

/-- First alternative `\d{1,3}(?:,\s?\d{3})+\.\d{2}`.  It can succeed only
when the leading digit run has length 1–3 (a longer run leaves a digit
where `,` is required, for every choice of `\d{1,3}`). -/
def matchNumberAlt1 (cs : List Char) : Option (List Char × List Char) :=
  let (ds, r1) := cs.span (·.isDigit)
  if ds.length = 0 || 3 < ds.length then none
  else
    match thousandsGroups r1.length r1 with
    | none => none
    | some (g, r2) =>
      match dotTwoDigits r2 with
      | none => none
      | some (dot, r3) => some (ds ++ g ++ dot, r3)

/-- Second alternative `\d+\.\d{2}` (greedy `\d+` never benefits from
backtracking: fewer digits leave a digit where `.` is required). -/
def matchNumberAlt2 (cs : List Char) : Option (List Char × List Char) :=
  let (ds, r1) := cs.span (·.isDigit)
  if ds.length = 0 then none
  else
    match dotTwoDigits r1 with
    | none => none
    | some (dot, r2) => some (ds ++ dot, r2)

/-- Try to match `MONEY_RE` at the current position; returns
(matched token, remaining input). -/
def matchMoneyAt (cs : List Char) : Option (List Char × List Char) :=
  let (sgn, cs1) : List Char × List Char :=
    match cs with
    | '+' :: r => (['+'], r)
    | '-' :: r => (['-'], r)
    | _ => ([], cs)
  let (cur, cs2) : List Char × List Char :=
    match cs1 with
    | '$' :: r => (['$'], r)
    | 'S' :: r => (['S'], r)
    | 's' :: r => (['s'], r)
    | _ => ([], cs1)
  match matchNumberAlt1 cs2 with
  | some (num, rest) => some (sgn ++ cur ++ num, rest)
  | none =>
    match matchNumberAlt2 cs2 with
    | some (num, rest) => some (sgn ++ cur ++ num, rest)
    | none => none

/-- `MONEY_RE.findall`: leftmost non-overlapping matches. -/
def moneyScan (fuel : ℕ) (cs : List Char) : List (List Char) :=
  match fuel, cs with
  | 0, _ => []
  | _, [] => []
  | fuel + 1, _ :: rest =>
    match matchMoneyAt cs with
    | some (tok, r) => tok :: moneyScan fuel r
    | none => moneyScan fuel rest

def moneyTokens (cs : List Char) : List (List Char) := moneyScan cs.length cs

/-- `parse_money`: strip every character except digits, `.` and `-`, then
parse as `Decimal` (`None` where `Decimal` would raise). -/
def parse_money (token : List Char) : Option ℚ :=
  let clean := token.filter (fun c => c.isDigit || c = '.' || c = '-')
  let (neg, body) : Bool × List Char :=
    match clean with
    | '-' :: r => (true, r)
    | _ => (false, clean)
  if body.any (fun c => c = '-') then none
  else
    let (intPart, r1) := body.span (·.isDigit)
    match r1 with
    | [] =>
      if intPart.isEmpty then none
      else some (if neg then -(digitsToNat intPart : ℚ) else (digitsToNat intPart : ℚ))
    | '.' :: fracRest =>
      let (fracPart, r2) := fracRest.span (·.isDigit)
      if ¬ r2.isEmpty then none
      else if intPart.isEmpty && fracPart.isEmpty then none
      else
        let mag : ℚ := mkRat
          (digitsToNat intPart * 10 ^ fracPart.length + digitsToNat fracPart)
          (10 ^ fracPart.length)
        some (if neg then -mag else mag)
    | _ => none

def MAX_PLAUSIBLE_AMOUNT : ℚ := 10000000

structure ParseAnomaly where
  code : String
  severity : String
  message : String
  evidence : String
deriving DecidableEq

/-- Render a nonnegative rational that is an exact multiple of `1/100`
with two decimal places, as `str(Decimal(...))` renders the amounts the
money regex produces. -/
def twoDecString (q : ℚ) : String :=
  let c : ℕ := (⌊qMul q 100⌋).toNat
  toString (c / 100) ++ "." ++ (if c % 100 < 10 then "0" else "") ++ toString (c % 100)

/-- The anomaly recorded for an implausibly large token. -/
def implausibleAnomaly (line : String) (token : List Char) (parsed : ℚ) : ParseAnomaly :=
  ⟨"implausible_amount_filtered", "warning",
   "Filtered implausible money token `" ++ String.mk token ++ "` parsed as "
     ++ twoDecString |parsed| ++ ".", line⟩

/-- One iteration of the token loop of `extract_money_values_with_anomalies`. -/
def moneyFoldStep (line : String) (acc : List ℚ × List ParseAnomaly)
    (token : List Char) : List ℚ × List ParseAnomaly :=
  match parse_money token with
  | none => acc
  | some parsed =>
    if MAX_PLAUSIBLE_AMOUNT < |parsed| then
      (acc.1, acc.2 ++ [implausibleAnomaly line token parsed])
    else
      (acc.1 ++ [parsed], acc.2)

/-- `extract_money_values_with_anomalies`: parse every money token of the
line; a token whose absolute value exceeds 10,000,000.00 becomes one
`implausible_amount_filtered` anomaly instead of a value.  Note the source
appends `parsed` (sign retained), not `abs_value`. -/
def extract_money_values_with_anomalies (line : String) : List ℚ × List ParseAnomaly :=
  (moneyTokens line.toList).foldl (moneyFoldStep line) ([], [])

def extract_money_values (line : String) : List ℚ :=
  (extract_money_values_with_anomalies line).1

/-! ## `core.py`: line normalization (`heal_numeric_noise`, `normalize_line`)

Each `re.sub` is implemented as a left-to-right scanner that resumes
after the end of each replaced match, exactly as `re.sub` does; where a
zero-width assertion (`\b`, `(?<!\d)`) looks at the previous character it
sees the character of the original string, matching `re` semantics. -/

/-- `re.sub(r"\bS(?=\d)", "$", text)` (case-sensitive). -/
def subSDollarAux (prev : Option Char) : List Char → List Char
  | [] => []
  | c :: rest =>
    let prevWord : Bool := match prev with | none => false | some p => isWordC p
    if c = 'S' && (match rest with | d :: _ => d.isDigit | [] => false) && !prevWord then
      '$' :: subSDollarAux (some 'S') rest
    else
      c :: subSDollarAux (some c) rest

def subSDollar (cs : List Char) : List Char := subSDollarAux none cs

/-- Character class `[\dOIlo,\.]` of the swap rule. -/
def isSwapClass (c : Char) : Bool :=
  c.isDigit || c = 'O' || c = 'I' || c = 'l' || c = 'o' || c = ',' || c = '.'

def swapChar (c : Char) : Char :=
  if c = 'O' || c = 'o' then '0' else if c = 'I' || c = 'l' then '1' else c

/-- `re.sub(r"[\dOIlo,\.]{3,}", swap_chars, text)`: every maximal run of
class characters of length ≥ 3 has its `O/o → 0`, `I/l → 1` swaps applied. -/
def subSwapRunsAux (fuel : ℕ) (cs : List Char) : List Char :=
  match fuel, cs with
  | 0, rest => rest
  | _, [] => []
  | fuel + 1, c :: rest =>
    if isSwapClass c then
      let (run, r2) := (c :: rest).span isSwapClass
      (if 3 ≤ run.length then run.map swapChar else run) ++ subSwapRunsAux fuel r2
    else
      c :: subSwapRunsAux fuel rest

def subSwapRuns (cs : List Char) : List Char := subSwapRunsAux cs.length cs

/-- `re.sub(r"(\d)\s+([,\.])\s+(\d)", r"\1\2\3", text)`. -/
def subDigitSpSepSpDigit (fuel : ℕ) (cs : List Char) : List Char :=
  match fuel, cs with
  | 0, rest => rest
  | _, [] => []
  | fuel + 1, c :: rest =>
    if c.isDigit then
      let (ws1, r1) := rest.span isSpaceC
      match r1 with
      | sep :: r2 =>
        if (sep = ',' || sep = '.') && !ws1.isEmpty then
          let (ws2, r3) := r2.span isSpaceC
          match r3 with
          | d :: r4 =>
            if d.isDigit && !ws2.isEmpty then c :: sep :: d :: subDigitSpSepSpDigit fuel r4
            else c :: subDigitSpSepSpDigit fuel rest
          | [] => c :: subDigitSpSepSpDigit fuel rest
        else c :: subDigitSpSepSpDigit fuel rest
      | [] => c :: subDigitSpSepSpDigit fuel rest
    else
      c :: subDigitSpSepSpDigit fuel rest

/-- `re.sub(r"(\d)[,\.]\s+(\d)", r"\1\2", text)` — note the separator and
the spaces are deleted by the replacement. -/
def subDigitSepSpDigit (fuel : ℕ) (cs : List Char) : List Char :=
  match fuel, cs with
  | 0, rest => rest
  | _, [] => []
  | fuel + 1, c :: rest =>
    if c.isDigit then
      match rest with
      | sep :: r2 =>
        if sep = ',' || sep = '.' then
          let (ws, r3) := r2.span isSpaceC
          match r3 with
          | d :: r4 =>
            if d.isDigit && !ws.isEmpty then c :: d :: subDigitSepSpDigit fuel r4
            else c :: subDigitSepSpDigit fuel rest
          | [] => c :: subDigitSepSpDigit fuel rest
        else c :: subDigitSepSpDigit fuel rest
      | [] => c :: subDigitSepSpDigit fuel rest
    else
      c :: subDigitSepSpDigit fuel rest

def heal_numeric_noise (cs : List Char) : List Char :=
  let t1 := subSDollar cs
  let t2 := subSwapRuns t1
  let t3 := subDigitSpSepSpDigit t2.length t2
  subDigitSepSpDigit t3.length t3

/-- `re.sub(r"(\d)\s*\.\s*(\d)", r"\1.\2", line)`. -/
def subDigitDotDigit (fuel : ℕ) (cs : List Char) : List Char :=
  match fuel, cs with
  | 0, rest => rest
  | _, [] => []
  | fuel + 1, c :: rest =>
    if c.isDigit then
      let (_, r1) := rest.span isSpaceC
      match r1 with
      | '.' :: r2 =>
        let (_, r3) := r2.span isSpaceC
        match r3 with
        | d :: r4 =>
          if d.isDigit then c :: '.' :: d :: subDigitDotDigit fuel r4
          else c :: subDigitDotDigit fuel rest
        | [] => c :: subDigitDotDigit fuel rest
      | _ => c :: subDigitDotDigit fuel rest
    else
      c :: subDigitDotDigit fuel rest

/-- `re.sub(r"(?<!\d)-\s+(\d)", r"-\1", line)`. -/
def subMinusSpDigit (fuel : ℕ) (prev : Option Char) (cs : List Char) : List Char :=
  match fuel, cs with
  | 0, rest => rest
  | _, [] => []
  | fuel + 1, c :: rest =>
    let prevDigit : Bool := match prev with | none => false | some p => p.isDigit
    if c = '-' && !prevDigit then
      let (ws, r1) := rest.span isSpaceC
      match r1 with
      | d :: r2 =>
        if d.isDigit && !ws.isEmpty then '-' :: d :: subMinusSpDigit fuel (some d) r2
        else c :: subMinusSpDigit fuel (some c) rest
      | [] => c :: subMinusSpDigit fuel (some c) rest
    else
      c :: subMinusSpDigit fuel (some c) rest

/-- `re.sub(r"\s+", " ", line)`. -/
def subCollapseWs (fuel : ℕ) (cs : List Char) : List Char :=
  match fuel, cs with
  | 0, rest => rest
  | _, [] => []
  | fuel + 1, c :: rest =>
    if isSpaceC c then
      let (_, r1) := rest.span isSpaceC
      ' ' :: subCollapseWs fuel r1
    else
      c :: subCollapseWs fuel rest

def normalize_line (line : String) : String :=
  let t0 := stripChars line.toList
  let t1 := heal_numeric_noise t0
  let t2 := subDigitDotDigit t1.length t1
  let t3 := subMinusSpDigit t2.length none t2
  String.mk (subCollapseWs t3.length t3)

/-! ## `core.py`: `AmountPair` and this-period/YTD disambiguation -/

structure AmountPair where
  this_period : Option ℚ
  ytd : Option ℚ
  source_line : Option String
  is_ytd_confirmed : Bool := false
deriving DecidableEq

def hasAnyKw (up : String) (kws : List String) : Bool :=
  kws.any (fun k => containsStr up k)

/-- `parse_amount_pair_from_line`. -/
def parse_amount_pair_from_line (line : String) : AmountPair :=
  let normalized := normalize_line line
  let amounts := (extract_money_values normalized).map (fun v => |v|)
  match amounts with
  | [] => ⟨none, none, some normalized, false⟩
  | [a] =>
    let up := upperStr normalized
    if hasAnyKw up ["YTD", "YEAR TO DATE"] then ⟨none, some a, some normalized, false⟩
    else if hasAnyKw up ["THIS PERIOD", "CURRENT", "REGULAR", "EARNINGS"] then
      ⟨some a, none, some normalized, false⟩
    else ⟨some a, none, some normalized, false⟩
  | a :: b :: _ =>
    let up := upperStr normalized
    if a ≤ b then ⟨some a, some b, some normalized, false⟩
    else if hasAnyKw up ["YTD", "YEAR TO DATE"] then ⟨none, some a, some normalized, false⟩
    else if hasAnyKw up ["THIS PERIOD", "CURRENT", "REGULAR", "EARNINGS"] then
      ⟨some a, none, some normalized, false⟩
    else ⟨some a, none, some normalized, false⟩

/-! ## `core.py` / `annual.py`: snapshots and money formatting -/

/-- One per-document snapshot (the `parse_anomalies` field is omitted:
no embedded operation reads it, and `clone_snapshots` drops it). -/
structure PaystubSnapshot where
  file : String
  pay_date : Option String
  gross_pay : AmountPair
  federal_income_tax : AmountPair
  social_security_tax : AmountPair
  medicare_tax : AmountPair
  k401_contrib : AmountPair
  state_income_tax : List (String × AmountPair)
  normalized_lines : List String
deriving DecidableEq

def lookupState (m : List (String × AmountPair)) (k : String) : Option AmountPair :=
  (m.find? (fun e => e.1 = k)).map (·.2)

/-- Replace the value stored under an existing key (Python dict
assignment keeps the key position). -/
def setState (m : List (String × AmountPair)) (k : String) (v : AmountPair) :
    List (String × AmountPair) :=
  m.map (fun e => if e.1 = k then (e.1, v) else e)

def sum_state_ytd (m : List (String × AmountPair)) : ℚ :=
  m.foldl (fun acc e => match e.2.ytd with | some v => qAdd acc v | none => acc) 0

def sum_state_this_period (m : List (String × AmountPair)) : ℚ :=
  m.foldl (fun acc e => match e.2.this_period with | some v => qAdd acc v | none => acc) 0

/-- Thousands grouping of a digit string, from the right. -/
def commaGroup (ds : List Char) : List Char :=
  (go ds.reverse).reverse
where
  go : List Char → List Char
    | a :: b :: c :: d :: rest => a :: b :: c :: ',' :: go (d :: rest)
    | short => short

/-- `format_money`: `"$" + f"{value.quantize(0.01):,.2f}"`, `"n/a"` for `None`. -/
def format_money (v : Option ℚ) : String :=
  match v with
  | none => "n/a"
  | some q =>
    let cents : ℤ := pyRound (qMul q 100)
    let a : ℕ := cents.natAbs
    let frac : ℕ := a % 100
    "$" ++ (if cents < 0 then "-" else "")
      ++ String.mk (commaGroup (toString (a / 100)).toList)
      ++ "." ++ (if frac < 10 then "0" else "") ++ toString frac

/-! ## `annual.py`: state-YTD repair engine -/

structure ConsistencyIssue where
  severity : String
  code : String
  message : String
deriving DecidableEq

abbrev NotesMap := List (String × List String)

/-- `notes_by_file.setdefault(file, []).append(note)`. -/
def recordNote (m : NotesMap) (file note : String) : NotesMap :=
  if m.any (fun e => e.1 = file) then
    m.map (fun e => if e.1 = file then (e.1, e.2 ++ [note]) else e)
  else m ++ [(file, [note])]

def STATE_YTD_OUTLIER_MIN_ABS : ℚ := 250
def STATE_YTD_NEIGHBOR_TOLERANCE : ℚ := 1
def STATE_YTD_SPIKE_MULTIPLIER : ℚ := 4

/-- `clone_snapshots`: state pairs are rebuilt with the 3-argument
constructor (so `is_ytd_confirmed` resets to `False`); the other pairs are
shared. -/
def clone_snapshots (snapshots : List PaystubSnapshot) : List PaystubSnapshot :=
  snapshots.map (fun s =>
    { s with state_income_tax :=
        s.state_income_tax.map (fun e => (e.1, ⟨e.2.this_period, e.2.ytd, e.2.source_line, false⟩)) })

/-- `pair.source_line is None or "-" not in pair.source_line`. -/
def noMinusEvidence (sl : Option String) : Bool :=
  match sl with
  | none => true
  | some s => !(containsStr s "-")

/-- The per-occurrence repair decision of
`verify_and_repair_state_ytd_anomalies` (the `if/elif/elif/else` chain).
Returns `(repaired pair, corrected_ytd, reason)` when a repair fires. -/
def state_repair_step (tolerance : ℚ) (pair : AmountPair)
    (prev_ytd next_ytd : Option ℚ) (same_cycle_peer_ytds : List ℚ) :
    Option (AmountPair × ℚ × String) :=
  let underflow : Unit → Option (AmountPair × ℚ × String) := fun _ =>
    match pair.ytd with
    | none => none
    | some current_ytd =>
      let baseline : Option ℚ :=
        match maxQ same_cycle_peer_ytds with
        | some m => some m
        | none => prev_ytd
      match baseline, pair.this_period with
      | some b, none =>
        if current_ytd < qSub b STATE_YTD_OUTLIER_MIN_ABS then
          let projected := quantize2 (qAdd b current_ytd)
          let valid : Bool :=
            match next_ytd with
            | some n => decide (qSub projected STATE_YTD_NEIGHBOR_TOLERANCE ≤ n)
            | none => true
          if valid then
            some (⟨some current_ytd, some projected, pair.source_line, false⟩,
                  projected, "state_ytd_underflow_corrected")
          else none
        else none
      | _, _ => none
  match pair.ytd with
  | none => none
  | some current_ytd =>
    match prev_ytd, next_ytd with
    | some p, some n =>
      if |qSub p n| ≤ STATE_YTD_NEIGHBOR_TOLERANCE then
        let anchor := quantize2 (qDiv (qAdd p n) 2)
        if qAdd anchor STATE_YTD_OUTLIER_MIN_ABS < current_ytd ∧
            qMul anchor STATE_YTD_SPIKE_MULTIPLIER < current_ytd then
          let corrected_this : Option ℚ :=
            match pair.this_period with
            | some t =>
              if |qSub t anchor| ≤ max tolerance (mkRat 1 100)
                  ∧ noMinusEvidence pair.source_line then
                none
              else some t
            | none => none
          some (⟨corrected_this, some anchor, pair.source_line, false⟩,
                anchor, "neighbor_consistency")
        else none
      else underflow ()
    | none, some n =>
      match pair.this_period with
      | some tp =>
        if qAdd n STATE_YTD_OUTLIER_MIN_ABS < current_ytd ∧
            qMul n STATE_YTD_SPIKE_MULTIPLIER < current_ytd ∧
            tp ≤ qAdd n (max tolerance (mkRat 5 100)) then
          some (⟨pair.this_period, some tp, pair.source_line, false⟩, tp, "opening_entry_spike")
        else none
      | none => underflow ()
    | some p, none =>
      match pair.this_period with
      | some tp =>
        if qAdd p STATE_YTD_OUTLIER_MIN_ABS < current_ytd ∧
            qMul p STATE_YTD_SPIKE_MULTIPLIER < current_ytd ∧
            |qSub tp p| ≤ mkRat 1 2 ∧ noMinusEvidence pair.source_line then
          some (⟨none, some p, pair.source_line, false⟩, p, "closing_entry_spike")
        else none
      | none => underflow ()
    | none, none => underflow ()

/-- `snapshot.pay_date or snapshot.file` (empty string is falsy). -/
def repairTarget (s : PaystubSnapshot) : String :=
  match s.pay_date with
  | some d => if d = "" then s.file else d
  | none => s.file

def repairIssueCode (reason : String) : String :=
  if reason = "state_ytd_underflow_corrected" then reason else "state_ytd_outlier_corrected"

def repairMessage (state target : String) (old new : ℚ) (reason : String) : String :=
  state ++ " state tax YTD on " ++ target ++ " was auto-corrected from "
    ++ format_money (some old) ++ " to " ++ format_money (some new)
    ++ " (" ++ reason ++ ")."

def repairNoteText (state : String) (old new : ℚ) : String :=
  state ++ ": " ++ format_money (some old) ++ " -> " ++ format_money (some new)

/-- The single `ConsistencyIssue` appended for one accepted repair. -/
def repairIssue (state : String) (snapshot : PaystubSnapshot)
    (old new : ℚ) (reason : String) : ConsistencyIssue :=
  ⟨"warning", repairIssueCode reason,
   repairMessage state (repairTarget snapshot) old new reason⟩

/-- Chronological previous same-state YTD: scan earlier occurrences
backwards, skip same-pay-date siblings, take the first other row's value. -/
def prevStateYtd (snaps : List PaystubSnapshot) (state : String)
    (indices : List ℕ) (position : ℕ) (currentDate : Option String) : Option ℚ :=
  (((indices.take position).reverse.findSome? (fun j =>
      match snaps.get? j with
      | some s =>
        if s.pay_date = currentDate then none
        else some ((lookupState s.state_income_tax state).bind (·.ytd))
      | none => none))).join

def nextStateYtd (snaps : List PaystubSnapshot) (state : String)
    (indices : List ℕ) (position : ℕ) (currentDate : Option String) : Option ℚ :=
  (((indices.drop (position + 1)).findSome? (fun j =>
      match snaps.get? j with
      | some s =>
        if s.pay_date = currentDate then none
        else some ((lookupState s.state_income_tax state).bind (·.ytd))
      | none => none))).join

/-- Same-pay-date peer YTD values (fallback anchors). -/
def sameCyclePeerYtds (snaps : List PaystubSnapshot) (state : String)
    (indices : List ℕ) (idx : ℕ) (currentDate : Option String) : List ℚ :=
  indices.filterMap (fun j =>
    if j = idx then none
    else
      match snaps.get? j with
      | some s =>
        if s.pay_date = currentDate then (lookupState s.state_income_tax state).bind (·.ytd)
        else none
      | none => none)

/-- One loop iteration of the repair walk (`pi = (position, idx)`). -/
def repairAtPosition (tolerance : ℚ) (state : String) (indices : List ℕ)
    (acc : List PaystubSnapshot × List ConsistencyIssue × NotesMap) (pi : ℕ × ℕ) :
    List PaystubSnapshot × List ConsistencyIssue × NotesMap :=
  let (snaps, issues, notes) := acc
  match snaps.get? pi.2 with
  | none => acc
  | some snapshot =>
    match lookupState snapshot.state_income_tax state with
    | none => acc
    | some pair =>
      match pair.ytd with
      | none => acc
      | some current =>
        let prev := prevStateYtd snaps state indices pi.1 snapshot.pay_date
        let next := nextStateYtd snaps state indices pi.1 snapshot.pay_date
        let peers := sameCyclePeerYtds snaps state indices pi.2 snapshot.pay_date
        match state_repair_step tolerance pair prev next peers with
        | none => acc
        | some (newPair, corrected, reason) =>
          (snaps.set pi.2
             { snapshot with state_income_tax := setState snapshot.state_income_tax state newPair },
           issues ++ [repairIssue state snapshot current corrected reason],
           recordNote notes snapshot.file (repairNoteText state current corrected))

def repairStateWalk (tolerance : ℚ) (state : String) (indices : List ℕ)
    (acc : List PaystubSnapshot × List ConsistencyIssue × NotesMap) :
    List PaystubSnapshot × List ConsistencyIssue × NotesMap :=
  indices.enum.foldl (repairAtPosition tolerance state indices) acc

/-- Lexicographic strict comparison on character lists (Python string
`<`, by code point). -/
def strLtL : List Char → List Char → Bool
  | [], [] => false
  | [], _ :: _ => true
  | _ :: _, [] => false
  | a :: as, b :: bs =>
    if a.toNat < b.toNat then true
    else if b.toNat < a.toNat then false
    else strLtL as bs

def strLt (a b : String) : Bool := strLtL a.toList b.toList

def strLe (a b : String) : Bool := !(strLtL b.toList a.toList)

theorem strLtL_irrefl : ∀ x : List Char, strLtL x x = false := by
  intro x
  induction x with
  | nil => rfl
  | cons a as ih => simp [strLtL, ih]

theorem strLtL_trans : ∀ x y z : List Char,
    strLtL x y = true → strLtL y z = true → strLtL x z = true := by
  intro x
  induction x with
  | nil =>
    intro y z hxy hyz
    cases y with
    | nil => cases hxy
    | cons b bs =>
      cases z with
      | nil => cases hyz
      | cons c cs => rfl
  | cons a as ih =>
    intro y z hxy hyz
    cases y with
    | nil => cases hxy
    | cons b bs =>
      cases z with
      | nil => cases hyz
      | cons c cs =>
        simp only [strLtL] at hxy hyz ⊢
        by_cases hab : a.toNat < b.toNat
        · simp only [hab, if_true] at hxy
          by_cases hbc : b.toNat < c.toNat
          · simp [show a.toNat < c.toNat from lt_trans hab hbc]
          · by_cases hcb : c.toNat < b.toNat
            · simp [hcb, if_neg (lt_asymm hcb)] at hyz
            · have hbc2 : b.toNat = c.toNat := le_antisymm (not_lt.mp hcb) (not_lt.mp hbc)
              simp [show a.toNat < c.toNat from hbc2 ▸ hab]
        · simp only [hab, if_false] at hxy
          by_cases hba : b.toNat < a.toNat
          · simp [hba] at hxy
          · have hab2 : a.toNat = b.toNat := le_antisymm (not_lt.mp hba) (not_lt.mp hab)
            simp only [hba, if_false] at hxy
            by_cases hbc : b.toNat < c.toNat
            · simp [show a.toNat < c.toNat from hab2 ▸ hbc]
            · by_cases hcb : c.toNat < b.toNat
              · simp [hcb, if_neg (lt_asymm hcb)] at hyz
              · have hbc2 : b.toNat = c.toNat := le_antisymm (not_lt.mp hcb) (not_lt.mp hbc)
                simp only [hbc, if_false, hcb] at hyz
                have hac : ¬ a.toNat < c.toNat := by rw [hab2, hbc2]; exact lt_irrefl _
                have hca : ¬ c.toNat < a.toNat := by rw [hab2, hbc2]; exact lt_irrefl _
                simp only [hac, if_false, hca]
                exact ih bs cs hxy hyz

theorem strLtL_trich : ∀ x y : List Char,
    strLtL x y = true ∨ strLtL y x = true ∨ x = y := by
  intro x
  induction x with
  | nil =>
    intro y
    cases y with
    | nil => right; right; rfl
    | cons b bs => left; rfl
  | cons a as ih =>
    intro y
    cases y with
    | nil => right; left; rfl
    | cons b bs =>
      by_cases hab : a.toNat < b.toNat
      · left; simp [strLtL, hab]
      · by_cases hba : b.toNat < a.toNat
        · right; left; simp [strLtL, hba]
        · have hab2 : a.toNat = b.toNat := le_antisymm (not_lt.mp hba) (not_lt.mp hab)
          have hcc : a = b := Char.ext_iff.mpr (UInt32.ext_iff.mpr hab2)
          rcases ih bs with h | h | h
          · left; simp [strLtL, hab, hba, h]
          · right; left; simp [strLtL, hab, hba, hcc, h]
          · right; right; rw [hcc, h]

theorem strLtL_asymm {x y : List Char} (h : strLtL x y = true) :
    strLtL y x = false := by
  by_cases h2 : strLtL y x = true
  · have := strLtL_trans x y x h h2
    rw [strLtL_irrefl] at this
    cases this
  · exact Bool.not_eq_true _ ▸ h2

theorem strLe_total : ∀ a b : String, strLe a b = true ∨ strLe b a = true := by
  intro a b
  rcases strLtL_trich a.toList b.toList with h | h | h
  · left
    show (!(strLtL b.toList a.toList)) = true
    rw [strLtL_asymm h]
    rfl
  · right
    show (!(strLtL a.toList b.toList)) = true
    rw [strLtL_asymm h]
    rfl
  · left
    show (!(strLtL b.toList a.toList)) = true
    rw [← h, strLtL_irrefl]
    rfl

theorem strLe_trans : ∀ a b c : String,
    strLe a b = true → strLe b c = true → strLe a c = true := by
  intro a b c hab hbc
  simp only [strLe, Bool.not_eq_true', Bool.not_eq_true] at hab hbc ⊢
  by_cases hca : strLtL c.toList a.toList = true
  · rcases strLtL_trich b.toList a.toList with h | h | h
    · rw [h] at hab; cases hab
    · have := strLtL_trans c.toList a.toList b.toList hca h
      rw [this] at hbc; cases hbc
    · rw [← h] at hca
      rw [hca] at hbc; cases hbc
  · exact Bool.not_eq_true _ ▸ hca

/-- First-occurrence deduplication (the set comprehension keeps one copy
of each key; only the member set matters, the order is sorted away). -/
def dedupKeysAux (seen : List String) : List String → List String
  | [] => []
  | x :: xs =>
    if seen.contains x then dedupKeysAux seen xs
    else x :: dedupKeysAux (x :: seen) xs

def dedupKeys (l : List String) : List String := dedupKeysAux [] l

/-- `sorted({state for snapshot in repaired for state in ...})`. -/
def statesOf (snaps : List PaystubSnapshot) : List String :=
  stableSortBy strLe (dedupKeys (snaps.flatMap (fun s => s.state_income_tax.map (·.1))))

/-- Occurrence indices of a state with a non-null YTD. -/
def indicesFor (state : String) (snaps : List PaystubSnapshot) : List ℕ :=
  (List.range snaps.length).filter (fun i =>
    match snaps.get? i with
    | some s =>
      match lookupState s.state_income_tax state with
      | some p => p.ytd.isSome
      | none => false
    | none => false)

/-- `verify_and_repair_state_ytd_anomalies` (annual.py, stage 3 of the
continuity engine). -/
def verify_and_repair_state_ytd_anomalies (snapshots : List PaystubSnapshot)
    (tolerance : ℚ) : List PaystubSnapshot × List ConsistencyIssue × NotesMap :=
  if snapshots.isEmpty then (snapshots, [], [])
  else
    let repaired := clone_snapshots snapshots
    let states := statesOf repaired
    states.foldl
      (fun acc state => repairStateWalk tolerance state (indicesFor state acc.1) acc)
      (repaired, [], [])

/-! ## `annual.py`: deduplication by pay date

Dates are kept as ISO `yyyy-mm-dd` strings: the source parses them into
`datetime.date` objects, and valid ISO date strings compare
lexicographically exactly as the dates compare chronologically, so the
orders coincide.  (`parse_iso_date` raises on malformed input in Python;
here malformed strings are carried through unchanged, which no embedded
claim exercises.) -/

def parse_iso_date (v : Option String) : Option String :=
  match v with
  | none => none
  | some s => if s = "" then none else some s

/-- `Path(file).name`. -/
def pathName (s : String) : String :=
  String.mk ((s.toList.reverse.takeWhile (fun c => c ≠ '/')).reverse)

def isLeapYear (y : ℕ) : Bool := (y % 4 = 0 && y % 100 ≠ 0) || y % 400 = 0

def daysInMonth (y m : ℕ) : ℕ :=
  if m = 2 then (if isLeapYear y then 29 else 28)
  else if m = 4 || m = 6 || m = 9 || m = 11 then 30
  else 31

/-- `datetime.strptime` calendar validation. -/
def validDate (y m d : ℕ) : Bool :=
  1 ≤ y && 1 ≤ m && m ≤ 12 && 1 ≤ d && d ≤ daysInMonth y m

def lowerList (cs : List Char) : List Char := cs.map Char.toLower

/-- Case-insensitive list equality. -/
def ciEq (a b : List Char) : Bool := lowerList a = lowerList b

def endsWithCi (cs suffix : List Char) : Bool :=
  (suffix.reverse).isPrefixOf ((lowerList cs).reverse)

/-- Try the ADP pattern `Pay Date (\d{4}-\d{2}-\d{2})(?:_.*)?\.pdf$`
(IGNORECASE) at this position; returns the captured date characters. -/
def adpRegexAt (cs : List Char) : Option (List Char) :=
  let label := cs.take 9
  if ciEq label "Pay Date ".toList then
    let rest := cs.drop 9
    match rest.take 10 with
    | [y1, y2, y3, y4, h1, m1, m2, h2, d1, d2] =>
      if y1.isDigit && y2.isDigit && y3.isDigit && y4.isDigit && h1 = '-'
          && m1.isDigit && m2.isDigit && h2 = '-' && d1.isDigit && d2.isDigit then
        let tail := rest.drop 10
        if ciEq tail ".pdf".toList
            || (match tail with
                | '_' :: _ => endsWithCi tail ".pdf".toList
                | _ => false) then
          some [y1, y2, y3, y4, h1, m1, m2, h2, d1, d2]
        else none
      else none
    | _ => none
  else none

/-- Leftmost ADP match over all start positions (`re.search`). -/
def adpSearch (cs : List Char) : Option (List Char) :=
  cs.tails.findSome? adpRegexAt

/-- `parse_pay_date_from_filename_any` on `Path(...).name`; returns the
ISO date string.  A shape-matching but calendar-invalid date raises in
Python (`strptime`); here it yields `none`. -/
def parse_pay_date_from_filename (name : String) : Option String :=
  match adpSearch name.toList with
  | some ds =>
    let y := digitsToNat (ds.take 4)
    let m := digitsToNat ((ds.drop 5).take 2)
    let d := digitsToNat (ds.drop 8)
    if validDate y m d then some (String.mk ds) else none
  | none =>
    let cs := name.toList
    if ciEq (cs.take 24) "EEPayrollPayCheckDetail_".toList then
      let rest := cs.drop 24
      let digits := rest.take 8
      if digits.length = 8 && digits.all (·.isDigit) && ciEq (rest.drop 8) ".pdf".toList then
        let m := digitsToNat (digits.take 2)
        let d := digitsToNat ((digits.drop 2).take 2)
        let y := digitsToNat (digits.drop 4)
        if validDate y m d then
          some ((String.mk (digits.drop 4)) ++ "-"
            ++ String.mk (digits.take 2) ++ "-" ++ String.mk ((digits.drop 2).take 2))
        else none
      else none
    else none

/-- `snapshot_sort_key`: `(pay date or filename date or date.min, file)`. -/
def snapshot_sort_key (s : PaystubSnapshot) : String × String :=
  let d1 := parse_iso_date s.pay_date
  let d2 := match d1 with
    | some d => some d
    | none => parse_pay_date_from_filename (pathName s.file)
  (d2.getD "0001-01-01", s.file)

def snapSortLe (x y : PaystubSnapshot) : Bool :=
  let a := snapshot_sort_key x
  let b := snapshot_sort_key y
  strLt a.1 b.1 || (a.1 == b.1 && strLe a.2 b.2)

/-- Lexicographic boolean order: strict `<` on the first component, else
equality and the tail order. -/
def ltEqLe [LinearOrder α] (lb : β → β → Bool) (x y : α × β) : Bool :=
  decide (x.1 < y.1) || (decide (x.1 = y.1) && lb x.2 y.2)

theorem ltEqLe_total [LinearOrder α] {lb : β → β → Bool}
    (hb : ∀ u v, lb u v = true ∨ lb v u = true) :
    ∀ x y : α × β, ltEqLe lb x y = true ∨ ltEqLe lb y x = true := by
  intro x y
  rcases lt_trichotomy x.1 y.1 with h | h | h
  · left; simp [ltEqLe, h]
  · rcases hb x.2 y.2 with h2 | h2
    · left; simp [ltEqLe, h, h2]
    · right; simp [ltEqLe, h.symm, h2]
  · right; simp [ltEqLe, h]

theorem ltEqLe_trans [LinearOrder α] {lb : β → β → Bool}
    (hbt : ∀ u v w, lb u v = true → lb v w = true → lb u w = true) :
    ∀ x y z : α × β, ltEqLe lb x y = true → ltEqLe lb y z = true →
      ltEqLe lb x z = true := by
  intro x y z hxy hyz
  simp only [ltEqLe, Bool.or_eq_true, Bool.and_eq_true, decide_eq_true_eq] at hxy hyz ⊢
  rcases hxy with h1 | ⟨e1, b1⟩
  · rcases hyz with h2 | ⟨e2, _⟩
    · exact Or.inl (lt_trans h1 h2)
    · exact Or.inl (e2 ▸ h1)
  · rcases hyz with h2 | ⟨e2, b2⟩
    · exact Or.inl (e1 ▸ h2)
    · exact Or.inr ⟨e1.trans e2, hbt _ _ _ b1 b2⟩

/-- `snapshot_quality_tuple`: (count of non-null YTD among gross, federal,
SS, medicare, state-total — the state total is a `Decimal` and always
counts; gross YTD or 0; federal YTD or 0; state-total YTD; file). -/
def snapshot_quality_tuple (s : PaystubSnapshot) : ℕ × ℚ × ℚ × ℚ × String :=
  let candidates : List (Option ℚ) :=
    [s.gross_pay.ytd, s.federal_income_tax.ytd, s.social_security_tax.ytd,
     s.medicare_tax.ytd, some (sum_state_ytd s.state_income_tax)]
  (candidates.countP (·.isSome),
   s.gross_pay.ytd.getD 0,
   s.federal_income_tax.ytd.getD 0,
   sum_state_ytd s.state_income_tax,
   s.file)

def qualityLe (x y : PaystubSnapshot) : Bool :=
  ltEqLe (ltEqLe (ltEqLe (ltEqLe strLe))) (snapshot_quality_tuple x) (snapshot_quality_tuple y)

def emptyAmountPair : AmountPair := ⟨none, none, none, false⟩

def dummySnapshot : PaystubSnapshot :=
  ⟨"", none, emptyAmountPair, emptyAmountPair, emptyAmountPair, emptyAmountPair,
   emptyAmountPair, [], []⟩

/-- `sorted(group, key=snapshot_quality_tuple)[-1]`. -/
def bestOfGroup (g : List PaystubSnapshot) : PaystubSnapshot :=
  lastD dummySnapshot (stableSortBy qualityLe g)

def groupOf (snaps : List PaystubSnapshot) (d : String) : List PaystubSnapshot :=
  snaps.filter (fun s => s.pay_date = some d)

/-- Distinct pay-date keys, sorted (the source iterates
`sorted(grouped)` over the date strings). -/
def sortedDates (snaps : List PaystubSnapshot) : List String :=
  stableSortBy strLe (dedupKeys (snaps.filterMap (·.pay_date)))

def duplicateIssue (d : String) (g : List PaystubSnapshot) : ConsistencyIssue :=
  let best := bestOfGroup g
  let ignored := (g.filter (fun s => s.file ≠ best.file)).map (·.file)
  ⟨"warning", "duplicate_pay_date",
   "Found " ++ toString g.length ++ " paystubs for " ++ d ++ ". Using `"
     ++ best.file ++ "` as canonical and ignoring: " ++ String.intercalate ", " ignored⟩

/-- `deduplicate_by_pay_date` at `pay_date_overrides=None` (the
`apply_manual_pay_date_overrides` call then returns its input and no
issues). -/
def deduplicate_by_pay_date (snapshots : List PaystubSnapshot) :
    List PaystubSnapshot × List ConsistencyIssue :=
  let keys := sortedDates snapshots
  let no_date := snapshots.filter (fun s => s.pay_date = none)
  let canonicalPre := keys.flatMap (fun d =>
    let g := groupOf snapshots d
    if g.length = 1 then g else [bestOfGroup g])
  let issues := keys.filterMap (fun d =>
    let g := groupOf snapshots d
    if g.length ≤ 1 then none else some (duplicateIssue d g))
  (stableSortBy snapSortLe (canonicalPre ++ no_date), issues)

/-! ## Dynamic Python values

`merge_corrections`, `validate_filing_safety` and the report assembly of
`analyze_filer` operate on plain Python dicts; `PyVal` embeds the values
that flow through them. -/

inductive PyVal where
  | none : PyVal
  | num (q : ℚ) : PyVal
  | str (s : String) : PyVal
  | bool (b : Bool) : PyVal
  | dict (entries : List (String × PyVal)) : PyVal

abbrev PyDict := List (String × PyVal)

def dictHasKey (d : PyDict) (k : String) : Bool := d.any (fun e => e.1 = k)

def dictGet (d : PyDict) (k : String) : Option PyVal :=
  (d.find? (fun e => e.1 = k)).map (·.2)

def dictGetD (d : PyDict) (k : String) (v : PyVal) : PyVal := (dictGet d k).getD v

/-- Python dict assignment: overwrite in place, or append a new key. -/
def dictSet (d : PyDict) (k : String) (v : PyVal) : PyDict :=
  if dictHasKey d k then d.map (fun e => if e.1 = k then (e.1, v) else e)
  else d ++ [(k, v)]

def isNonePV : PyVal → Bool
  | .none => true
  | _ => false

/-! ## `filing_rules.py`: the filing-safety gate

The source accumulates human-readable strings into `errors`/`warnings`;
only their count decides `passed`, so each appended string is embedded as
a `GateEntry` carrying the data the string renders. -/

structure ComparisonRow where
  field : String
  status : String
  difference : Option ℚ
deriving DecidableEq

inductive GateEntry where
  | missingField (field : String)
  | mismatch (field : String) (diff : ℚ)
  | minorMismatch (field : String) (diff : ℚ)
  | reviewNeeded (field : String)
  | missingValue (field : String) (status : String)
  | criticalIssue (code : String) (message : String)
  | warningIssue (code : String) (message : String)
deriving DecidableEq

structure FilingCheckResult where
  passed : Bool
  errors : List GateEntry
  warnings : List GateEntry
deriving DecidableEq

def required_fields : List String :=
  ["gross_pay", "federal_income_tax", "social_security_tax", "medicare_tax"]

/-- `extracted_values.get(field, {}).get("ytd")`. -/
def getYtdVal (extracted_values : PyDict) (field : String) : PyVal :=
  match dictGet extracted_values field with
  | some (.dict d) => dictGetD d "ytd" .none
  | some _ => .none
  | Option.none => .none

/-- The flat-or-nested dispatch at the top of `validate_filing_safety`. -/
def extractedValuesOf (extracted_data : PyDict) : PyDict :=
  if dictHasKey extracted_data "gross_pay" then extracted_data
  else
    match dictGet extracted_data "extracted" with
    | some (.dict d) => d
    | _ => []

/-- `abs(Decimal(str(diff_val)))`, with `None` treated as `0.00`. -/
def gateDiff (c : ComparisonRow) : ℚ :=
  match c.difference with | Option.none => 0 | some d => |d|

/-- Errors/warnings contributed by one comparison row. -/
def gateCompEntries (tolerance : ℚ) (c : ComparisonRow) :
    List GateEntry × List GateEntry :=
  if c.status = "mismatch" then
    if tolerance < gateDiff c then ([GateEntry.mismatch c.field (gateDiff c)], [])
    else ([], [GateEntry.minorMismatch c.field (gateDiff c)])
  else if c.status = "review_needed" then ([], [GateEntry.reviewNeeded c.field])
  else if c.status = "missing_paystub_value" ∨ c.status = "missing_w2_value" then
    ([GateEntry.missingValue c.field c.status], [])
  else ([], [])

/-- Errors/warnings contributed by one consistency issue. -/
def gateIssueEntries (i : ConsistencyIssue) : List GateEntry × List GateEntry :=
  if i.severity = "critical" then ([GateEntry.criticalIssue i.code i.message], [])
  else ([], [GateEntry.warningIssue i.code i.message])

/-- `validate_filing_safety`. -/
def validate_filing_safety (extracted_data : PyDict) (comparisons : List ComparisonRow)
    (consistency_issues : List ConsistencyIssue) (tolerance : ℚ) : FilingCheckResult :=
  let extracted_values := extractedValuesOf extracted_data
  let fieldErrors := required_fields.filterMap (fun f =>
    if isNonePV (getYtdVal extracted_values f) then some (GateEntry.missingField f) else none)
  let compES := comparisons.map (gateCompEntries tolerance)
  let issueES := consistency_issues.map gateIssueEntries
  let errors := fieldErrors ++ compES.flatMap (·.1) ++ issueES.flatMap (·.1)
  let warnings := compES.flatMap (·.2) ++ issueES.flatMap (·.2)
  ⟨errors.isEmpty, errors, warnings⟩

/-! ## `utils/corrections.py`: `merge_corrections` -/

structure CorrectionTraceEntry where
  corrected_field : String
  original_value : PyVal
  corrected_value : PyVal
  reason : PyVal
  timestamp : PyVal

def boxMap (k : String) : String :=
  if k = "box1" then "gross_pay"
  else if k = "box2" then "federal_income_tax"
  else if k = "box3" then "social_security_wages"
  else if k = "box4" then "social_security_tax"
  else if k = "box5" then "medicare_wages"
  else if k = "box6" then "medicare_tax"
  else k

def apos : String := String.singleton (Char.ofNat 39)

def bareStateWarning : String :=
  "WARNING: Cannot override bare " ++ apos ++ "state_income_tax" ++ apos
    ++ ". Use " ++ apos ++ "state_income_tax_XY" ++ apos
    ++ " (e.g. state_income_tax_VA). Skipping."

/-- `target_key.startswith("state_income_tax_") and len(target_key) == 19`. -/
def isStateTaxKey (k : String) : Bool :=
  "state_income_tax_".toList.isPrefixOf k.toList && k.length = 19

/-- `target_key.split("_")[-1]`. -/
def lastUnderscoreComp (k : String) : String :=
  String.mk ((k.toList.reverse.takeWhile (fun c => c ≠ '_')).reverse)

/-- One iteration of the `merge_corrections` loop.  `now` models the
`datetime.now(timezone.utc).isoformat()` default timestamp. -/
def mergeCorrectionStep (now : PyVal) (acc : PyDict × List CorrectionTraceEntry)
    (kv : String × PyVal) : PyDict × List CorrectionTraceEntry :=
  match kv.2 with
  | .dict c =>
    let (effective, trace) := acc
    let target_key0 := boxMap kv.1
    if target_key0 = "state_income_tax" then
      (effective, trace ++ [⟨"state_income_tax", .none, .none, .str bareStateWarning,
        dictGetD c "timestamp" now⟩])
    else
      let isState := isStateTaxKey target_key0
      let state_code := if isState then lastUnderscoreComp target_key0 else ""
      let target_key := if isState then "state_income_tax" else target_key0
      let effective1 :=
        if ¬ dictHasKey effective target_key
            ∧ (target_key = "social_security_wages" ∨ target_key = "medicare_wages") then
          dictSet effective target_key (.dict [("ytd", .none)])
        else effective
      if dictHasKey effective1 target_key then
        let new_val := dictGetD c "value" .none
        let reason := dictGetD c "audit_reason" (.str "Manual Correction")
        let timestamp := dictGetD c "timestamp" now
        if target_key = "state_income_tax" ∧ state_code ≠ "" then
          let smap : PyDict :=
            match dictGet effective1 "state_income_tax" with
            | some (.dict m) => m
            | _ => []
          let entry : PyDict :=
            match dictGet smap state_code with
            | some (.dict e) => e
            | some _ => []
            | Option.none => [("this_period", .none)]
          let old_val := dictGetD entry "ytd" .none
          let entry2 := dictSet (dictSet (dictSet entry "ytd" new_val)
            "is_corrected" (.bool true)) "correction_reason" reason
          let smap2 := dictSet smap state_code (.dict entry2)
          (dictSet effective1 "state_income_tax" (.dict smap2),
           trace ++ [⟨"state_income_tax_" ++ state_code, old_val, new_val, reason, timestamp⟩])
        else
          match dictGet effective1 target_key with
          | some (.dict d) =>
            if dictHasKey d "ytd" then
              let old_val := dictGetD d "ytd" .none
              let d2 := dictSet (dictSet (dictSet d "ytd" new_val)
                "is_corrected" (.bool true)) "correction_reason" reason
              (dictSet effective1 target_key (.dict d2),
               trace ++ [⟨target_key, old_val, new_val, reason, timestamp⟩])
            else
              (dictSet effective1 target_key new_val,
               trace ++ [⟨target_key, .dict d, new_val, reason, timestamp⟩])
          | some other =>
            (dictSet effective1 target_key new_val,
             trace ++ [⟨target_key, other, new_val, reason, timestamp⟩])
          | Option.none => (effective1, trace)
      else (effective1, trace)
  | _ => acc

/-- `merge_corrections`.  The ordered `corrections` dict is a key/value
list; `now` is the ambient clock value used for defaulted timestamps. -/
def merge_corrections (extracted_data : PyDict) (corrections : PyDict)
    (now : PyVal) : PyDict × List CorrectionTraceEntry :=
  if corrections.isEmpty then (extracted_data, [])
  else corrections.foldl (mergeCorrectionStep now) (extracted_data, [])

/-! ## `annual.py`: report cents and household aggregation -/

/-- The `to_cents` helper of `analyze_filer`: `0` whenever the field dict
is falsy or its `ytd` is `None`, else `int(round(ytd * 100))`. -/
def to_cents (x : PyVal) : ℤ :=
  match x with
  | .dict d =>
    if d.isEmpty then 0
    else
      match dictGet d "ytd" with
      | some (.num q) => pyRound (qMul q 100)
      | _ => 0
  | _ => 0

def filer_gross_cents (effective : PyDict) : ℤ :=
  to_cents (dictGetD effective "gross_pay" .none)

def filer_fed_cents (effective : PyDict) : ℤ :=
  to_cents (dictGetD effective "federal_income_tax" .none)

def state_tax_by_state_cents (effective : PyDict) : List (String × ℤ) :=
  match dictGet effective "state_income_tax" with
  | some (.dict m) => m.map (fun e => (e.1, to_cents e.2))
  | _ => []

/-- `ready_to_file = filing_safety.passed and bool(w2_data)`;
`status = "MATCH" if ready_to_file else "REVIEW_NEEDED"` (annual.py). -/
def filer_status (filing_safety_passed w2_present : Bool) : String :=
  if filing_safety_passed && w2_present then "MATCH" else "REVIEW_NEEDED"

/-- The `build_household_package` loop: `all_ready` starts `True` and is
cleared by any filer whose status is not `"MATCH"`. -/
def household_ready (statuses : List String) : Bool :=
  statuses.foldl (fun acc s => if s ≠ "MATCH" then false else acc) true

/-- `total_gross += filer_public["gross_pay_cents"]` accumulation. -/
def household_total (cents : List ℤ) : ℤ := cents.foldl (· + ·) 0

/-! ## Zero-period YTD promotion (continuity-engine stage 2)

`promote_ytd_candidates` is imported from `paystub_analyzer.annual` by the
repository test suite, but the function itself is not present under the
provided sources; it is modelled here from the specification. -/

/-- Promotion decision for one field pair.  Returns the (possibly
promoted) pair and `some true` for an accepted promotion, `some false`
for a rejected one, `none` when the pair is not a candidate. -/
def promotePair (prior : Option ℚ) (pair : AmountPair) : AmountPair × Option Bool :=
  match pair.ytd, pair.this_period with
  | Option.none, some v =>
    if 0 < v then
      match prior with
      | some p =>
        if p ≤ v then (⟨none, some v, pair.source_line, true⟩, some true)
        else (pair, some false)
      | Option.none => (⟨none, some v, pair.source_line, true⟩, some true)
    else (pair, none)
  | _, _ => (pair, none)

def promotionIssues (name : String) : Option Bool → List ConsistencyIssue
  | some true => [⟨"warning", "zero_period_ytd_promoted",
      "Promoted this_period into YTD for " ++ name ++ " on the terminal zero-period statement."⟩]
  | some false => [⟨"warning", "zero_period_ytd_promotion_rejected",
      "Rejected non-monotonic zero-period YTD promotion for " ++ name ++ "."⟩]
  | none => []

/-- Nearest prior same-field YTD, scanning the earlier snapshots from the
latest backwards. -/
def priorFieldYtd (earlier : List PaystubSnapshot)
    (get : PaystubSnapshot → Option ℚ) : Option ℚ :=
  earlier.reverse.findSome? get

/-- Modelled from the spec: `promote_ytd_candidates` (continuity-engine
stage 2), absent from the provided sources though imported by the
repository tests.  Per spec section 4.2: if the last snapshot shows
gross-pay `this_period = 0.00`, then for every field whose `ytd` is null
and whose `this_period` is positive, promote `this_period` into `ytd`
(nulling `this_period`) only if the promoted value is monotonic against
the nearest prior same-field YTD; an accepted promotion emits
`zero_period_ytd_promoted`, a rejected one `zero_period_ytd_promotion_rejected`
with the original extraction retained.  Fields handled: gross pay (the
gate value, never a positive candidate), the three statutory taxes, the
retirement contribution and each state tax.  The tolerance parameter is
kept for signature parity with the test suite; the spec assigns it no
role in the monotonicity test. -/
def promote_ytd_candidates (snapshots : List PaystubSnapshot) (tolerance : ℚ) :
    List PaystubSnapshot × List ConsistencyIssue :=
  let _ := tolerance
  match snapshots.getLast? with
  | none => ([], [])
  | some last =>
    if last.gross_pay.this_period = some 0 then
      let earlier := snapshots.dropLast
      let gp := promotePair (priorFieldYtd earlier (fun s => s.gross_pay.ytd)) last.gross_pay
      let fp := promotePair (priorFieldYtd earlier (fun s => s.federal_income_tax.ytd)) last.federal_income_tax
      let sp := promotePair (priorFieldYtd earlier (fun s => s.social_security_tax.ytd)) last.social_security_tax
      let mp := promotePair (priorFieldYtd earlier (fun s => s.medicare_tax.ytd)) last.medicare_tax
      let kp := promotePair (priorFieldYtd earlier (fun s => s.k401_contrib.ytd)) last.k401_contrib
      let statePromos := last.state_income_tax.map (fun e =>
        (e.1, promotePair (priorFieldYtd earlier
          (fun s => (lookupState s.state_income_tax e.1).bind (fun p => p.ytd))) e.2))
      let promoted : PaystubSnapshot :=
        { last with
          gross_pay := gp.1, federal_income_tax := fp.1, social_security_tax := sp.1,
          medicare_tax := mp.1, k401_contrib := kp.1,
          state_income_tax := statePromos.map (fun e => (e.1, e.2.1)) }
      let issues :=
        promotionIssues "gross_pay" gp.2 ++ promotionIssues "federal_income_tax" fp.2
          ++ promotionIssues "social_security_tax" sp.2 ++ promotionIssues "medicare_tax" mp.2
          ++ promotionIssues "k401_contrib" kp.2
          ++ statePromos.flatMap (fun e => promotionIssues ("state_income_tax_" ++ e.1) e.2.2)
      (earlier ++ [promoted], issues)
    else (snapshots, [])

/-! ## Generic list lemmas for the claim proofs -/

theorem flatMap_nil_iff (f : α → List β) :
    ∀ l : List α, (l.flatMap f = [] ↔ ∀ x ∈ l, f x = []) := by
  intro l
  induction l with
  | nil => simp
  | cons a as ih => simp [List.flatMap_cons, ih]

theorem filterMap_nil_iff (f : α → Option β) :
    ∀ l : List α, (l.filterMap f = [] ↔ ∀ x ∈ l, f x = none) := by
  intro l
  induction l with
  | nil => simp
  | cons a as ih =>
    cases h : f a with
    | none => simp [List.filterMap_cons, h, ih]
    | some b => simp [List.filterMap_cons, h]

/-! ## Claim C1: the filing-safety gate -/

theorem gateCompEntries_fst_nil (tol : ℚ) (htol : 0 ≤ tol) (c : ComparisonRow) :
    ((gateCompEntries tol c).1 = []) ↔
      (¬(c.status = "mismatch" ∧ ∃ d, c.difference = some d ∧ tol < |d|)
        ∧ c.status ≠ "missing_paystub_value" ∧ c.status ≠ "missing_w2_value") := by
  unfold gateCompEntries
  by_cases h1 : c.status = "mismatch"
  · rw [if_pos h1]
    by_cases h2 : tol < gateDiff c
    · rw [if_pos h2]
      constructor
      · intro h; cases h
      · intro h
        exfalso
        apply h.1
        refine ⟨h1, ?_⟩
        cases hd : c.difference with
        | none =>
          exfalso
          simp only [gateDiff, hd] at h2
          exact absurd htol (not_le.mpr h2)
        | some d =>
          refine ⟨d, rfl, ?_⟩
          simpa [gateDiff, hd] using h2
    · rw [if_neg h2]
      constructor
      · intro _
        refine ⟨?_, ?_, ?_⟩
        · rintro ⟨-, d, hd, hlt⟩
          exact h2 (by simpa [gateDiff, hd] using hlt)
        · rw [h1]; decide
        · rw [h1]; decide
      · intro _; rfl
  · rw [if_neg h1]
    by_cases h3 : c.status = "review_needed"
    · rw [if_pos h3]
      constructor
      · intro _
        refine ⟨fun hcontra => h1 hcontra.1, ?_, ?_⟩
        · rw [h3]; decide
        · rw [h3]; decide
      · intro _; rfl
    · rw [if_neg h3]
      by_cases h4 : c.status = "missing_paystub_value" ∨ c.status = "missing_w2_value"
      · rw [if_pos h4]
        constructor
        · intro h; cases h
        · rintro ⟨-, hm1, hm2⟩
          rcases h4 with h | h
          · exact absurd h hm1
          · exact absurd h hm2
      · rw [if_neg h4]
        push_neg at h4
        constructor
        · intro _
          exact ⟨fun hcontra => h1 hcontra.1, h4.1, h4.2⟩
        · intro _; rfl

theorem gateIssueEntries_fst_nil (i : ConsistencyIssue) :
    ((gateIssueEntries i).1 = []) ↔ i.severity ≠ "critical" := by
  unfold gateIssueEntries
  by_cases h : i.severity = "critical"
  · rw [if_pos h]
    constructor
    · intro hx; cases hx
    · intro hx; exact absurd h hx
  · rw [if_neg h]
    exact ⟨fun _ => h, fun _ => rfl⟩

/-- C1.  The filing-safety gate is a pure function of its inputs, and
`passed = true` iff no required YTD field is null, no comparison row is a
mismatch beyond tolerance, no row has a missing-value status, and no
consistency issue is critical; an in-tolerance mismatch row contributes a
warning entry (and, by the iff, never blocks passing).  Tolerance is
assumed nonnegative as everywhere in the program. -/
theorem C1_filing_safety_gate
    (extracted_data : PyDict) (comparisons : List ComparisonRow)
    (consistency_issues : List ConsistencyIssue) (tolerance : ℚ)
    (htol : 0 ≤ tolerance) :
    ((validate_filing_safety extracted_data comparisons consistency_issues tolerance).passed
        = true ↔
      ((∀ f ∈ required_fields,
          isNonePV (getYtdVal (extractedValuesOf extracted_data) f) = false)
        ∧ (∀ c ∈ comparisons,
            ¬(c.status = "mismatch" ∧ ∃ d, c.difference = some d ∧ tolerance < |d|))
        ∧ (∀ c ∈ comparisons,
            c.status ≠ "missing_paystub_value" ∧ c.status ≠ "missing_w2_value")
        ∧ (∀ i ∈ consistency_issues, i.severity ≠ "critical")))
    ∧ (∀ c ∈ comparisons, c.status = "mismatch" → ¬(tolerance < gateDiff c) →
        GateEntry.minorMismatch c.field (gateDiff c) ∈
          (validate_filing_safety extracted_data comparisons consistency_issues
            tolerance).warnings) := by
  constructor
  · show (List.isEmpty _ = true) ↔ _
    rw [List.isEmpty_iff]
    rw [List.append_eq_nil, List.append_eq_nil]
    rw [filterMap_nil_iff, flatMap_nil_iff, flatMap_nil_iff]
    constructor
    · rintro ⟨⟨hf, hc⟩, hi⟩
      refine ⟨?_, ?_, ?_, ?_⟩
      · intro f hfm
        have h0 := hf f hfm
        cases hb : isNonePV (getYtdVal (extractedValuesOf extracted_data) f) with
        | false => rfl
        | true => simp [hb] at h0
      · intro c hcm
        have h2 := hc _ (List.mem_map_of_mem (gateCompEntries tolerance) hcm)
        exact ((gateCompEntries_fst_nil tolerance htol c).mp h2).1
      · intro c hcm
        have h2 := hc _ (List.mem_map_of_mem (gateCompEntries tolerance) hcm)
        exact ((gateCompEntries_fst_nil tolerance htol c).mp h2).2
      · intro i him
        have h2 := hi _ (List.mem_map_of_mem gateIssueEntries him)
        exact (gateIssueEntries_fst_nil i).mp h2
    · rintro ⟨hf, hc1, hc2, hi⟩
      refine ⟨⟨?_, ?_⟩, ?_⟩
      · intro f hfm
        simp [hf f hfm]
      · intro p hp
        rcases List.mem_map.mp hp with ⟨c, hcm, rfl⟩
        exact (gateCompEntries_fst_nil tolerance htol c).mpr ⟨hc1 c hcm, hc2 c hcm⟩
      · intro p hp
        rcases List.mem_map.mp hp with ⟨i, him, rfl⟩
        exact (gateIssueEntries_fst_nil i).mpr (hi i him)
  · intro c hcm hmis hdiff
    show _ ∈ _ ++ _
    apply List.mem_append_left
    apply List.mem_flatMap.mpr
    refine ⟨gateCompEntries tolerance c, List.mem_map_of_mem _ hcm, ?_⟩
    unfold gateCompEntries
    rw [if_pos hmis, if_neg hdiff]
    exact List.mem_singleton.mpr rfl

/-- C1 witness: a complete extraction with one in-tolerance mismatch row
passes the gate with that row downgraded to a warning. -/
theorem C1_filing_safety_gate_witness :
    (0:ℚ) ≤ 5/100 ∧
    ((validate_filing_safety
        [("gross_pay", .dict [("ytd", .num 100)]),
         ("federal_income_tax", .dict [("ytd", .num 10)]),
         ("social_security_tax", .dict [("ytd", .num 5)]),
         ("medicare_tax", .dict [("ytd", .num 2)])]
        [⟨"federal_tax_withheld", "mismatch", some (1/100)⟩] [] (5/100)).passed = true)
    ∧ GateEntry.minorMismatch "federal_tax_withheld"
        (gateDiff ⟨"federal_tax_withheld", "mismatch", some (1/100)⟩) ∈
        (validate_filing_safety
          [("gross_pay", .dict [("ytd", .num 100)]),
           ("federal_income_tax", .dict [("ytd", .num 10)]),
           ("social_security_tax", .dict [("ytd", .num 5)]),
           ("medicare_tax", .dict [("ytd", .num 2)])]
          [⟨"federal_tax_withheld", "mismatch", some (1/100)⟩] [] (5/100)).warnings := by
  have h := C1_filing_safety_gate
    [("gross_pay", .dict [("ytd", .num 100)]),
     ("federal_income_tax", .dict [("ytd", .num 10)]),
     ("social_security_tax", .dict [("ytd", .num 5)]),
     ("medicare_tax", .dict [("ytd", .num 2)])]
    [⟨"federal_tax_withheld", "mismatch", some (1/100)⟩] [] (5/100) (by norm_num)
  refine ⟨by norm_num, ?_, ?_⟩
  · apply h.1.mpr
    refine ⟨by decide, ?_, by decide, by decide⟩
    intro c hcm
    rcases List.mem_singleton.mp hcm with rfl
    rintro ⟨-, d, hd, hlt⟩
    have h5 : some ((1:ℚ)/100) = some d := hd
    cases h5
    rw [show |(1:ℚ)/100| = 1/100 from abs_of_nonneg (by norm_num)] at hlt
    norm_num at hlt
  · refine h.2 _ (List.mem_singleton.mpr rfl) rfl ?_
    show ¬((5:ℚ)/100 < |(1:ℚ)/100|)
    rw [abs_of_nonneg (by norm_num : (0:ℚ) ≤ 1/100)]
    norm_num

/-! ## Claim C8: the tokenizing layer -/

/-- The anomaly produced (or not) by one token. -/
def anomalyOpt (line : String) (t : List Char) : Option ParseAnomaly :=
  match parse_money t with
  | some v => if MAX_PLAUSIBLE_AMOUNT < |v| then some (implausibleAnomaly line t v) else none
  | none => none

theorem moneyFold_spec (line : String) :
    ∀ (ts : List (List Char)) (acc : List ℚ × List ParseAnomaly),
      ((ts.foldl (moneyFoldStep line) acc).1 =
        acc.1 ++ (ts.filterMap parse_money).filter
          (fun v => !decide (MAX_PLAUSIBLE_AMOUNT < |v|)))
      ∧ ((ts.foldl (moneyFoldStep line) acc).2 =
        acc.2 ++ ts.filterMap (anomalyOpt line)) := by
  intro ts
  induction ts with
  | nil => intro acc; simp
  | cons t ts ih =>
    intro acc
    rw [List.foldl_cons, List.filterMap_cons, List.filterMap_cons]
    cases hp : parse_money t with
    | none =>
      have hstep : moneyFoldStep line acc t = acc := by
        simp only [moneyFoldStep, hp]
      rw [hstep]
      have hanom : anomalyOpt line t = none := by
        simp only [anomalyOpt, hp]
      rw [hanom]
      exact ih acc
    | some v =>
      by_cases hbig : MAX_PLAUSIBLE_AMOUNT < |v|
      · have hstep : moneyFoldStep line acc t =
            (acc.1, acc.2 ++ [implausibleAnomaly line t v]) := by
          simp only [moneyFoldStep, hp, if_pos hbig]
        have hanom : anomalyOpt line t = some (implausibleAnomaly line t v) := by
          simp only [anomalyOpt, hp, if_pos hbig]
        rw [hstep, hanom]
        have hfil : (v :: (ts.filterMap parse_money)).filter
              (fun v => !decide (MAX_PLAUSIBLE_AMOUNT < |v|))
            = (ts.filterMap parse_money).filter
              (fun v => !decide (MAX_PLAUSIBLE_AMOUNT < |v|)) := by
          rw [List.filter_cons]
          simp [hbig]
        rw [hfil]
        obtain ⟨h1, h2⟩ := ih (acc.1, acc.2 ++ [implausibleAnomaly line t v])
        exact ⟨h1, by rw [h2]; simp⟩
      · have hstep : moneyFoldStep line acc t = (acc.1 ++ [v], acc.2) := by
          simp only [moneyFoldStep, hp, if_neg hbig]
        have hanom : anomalyOpt line t = none := by
          simp only [anomalyOpt, hp, if_neg hbig]
        rw [hstep, hanom]
        have hfil : (v :: (ts.filterMap parse_money)).filter
              (fun v => !decide (MAX_PLAUSIBLE_AMOUNT < |v|))
            = v :: (ts.filterMap parse_money).filter
              (fun v => !decide (MAX_PLAUSIBLE_AMOUNT < |v|)) := by
          rw [List.filter_cons]
          simp [hbig]
        rw [hfil]
        obtain ⟨h1, h2⟩ := ih (acc.1 ++ [v], acc.2)
        exact ⟨by rw [h1]; simp, h2⟩

theorem anomaly_count_eq (line : String) :
    ∀ ts : List (List Char),
      (ts.filterMap (anomalyOpt line)).length =
        (ts.filterMap parse_money).countP (fun v => decide (MAX_PLAUSIBLE_AMOUNT < |v|)) := by
  intro ts
  induction ts with
  | nil => simp
  | cons t ts ih =>
    rw [List.filterMap_cons, List.filterMap_cons]
    cases hp : parse_money t with
    | none =>
      have : anomalyOpt line t = none := by simp only [anomalyOpt, hp]
      rw [this]
      exact ih
    | some v =>
      by_cases hbig : MAX_PLAUSIBLE_AMOUNT < |v|
      · have : anomalyOpt line t = some (implausibleAnomaly line t v) := by
          simp only [anomalyOpt, hp, if_pos hbig]
        rw [this, List.countP_cons]
        simp [hbig, ih]
      · have : anomalyOpt line t = none := by simp only [anomalyOpt, hp, if_neg hbig]
        rw [this, List.countP_cons]
        simp [hbig, ih]

/-- C8 (amended).  The tokenizing layer returns each parsed token value
with its sign retained (taking the absolute value is left to the
callers); every token whose absolute value exceeds 10,000,000.00 is
excluded from the returned amounts and instead contributes exactly one
`implausible_amount_filtered` warning anomaly citing the line. -/
theorem C8_tokenizer_amended (line : String) :
    ((extract_money_values_with_anomalies line).1 =
      ((moneyTokens line.toList).filterMap parse_money).filter
        (fun v => !decide (MAX_PLAUSIBLE_AMOUNT < |v|)))
    ∧ (∀ v ∈ (extract_money_values_with_anomalies line).1, |v| ≤ MAX_PLAUSIBLE_AMOUNT)
    ∧ ((extract_money_values_with_anomalies line).2.length =
        ((moneyTokens line.toList).filterMap parse_money).countP
          (fun v => decide (MAX_PLAUSIBLE_AMOUNT < |v|)))
    ∧ (∀ a ∈ (extract_money_values_with_anomalies line).2,
        a.code = "implausible_amount_filtered" ∧ a.severity = "warning"
          ∧ a.evidence = line) := by
  obtain ⟨h1, h2⟩ := moneyFold_spec line (moneyTokens line.toList) ([], [])
  have hv : (extract_money_values_with_anomalies line).1 =
      ((moneyTokens line.toList).filterMap parse_money).filter
        (fun v => !decide (MAX_PLAUSIBLE_AMOUNT < |v|)) := by
    rw [extract_money_values_with_anomalies, h1]
    simp
  have ha : (extract_money_values_with_anomalies line).2 =
      (moneyTokens line.toList).filterMap (anomalyOpt line) := by
    rw [extract_money_values_with_anomalies, h2]
    simp
  refine ⟨hv, ?_, ?_, ?_⟩
  · intro v hvmem
    rw [hv] at hvmem
    have := List.of_mem_filter hvmem
    simp only [Bool.not_eq_true', decide_eq_false_iff_not, not_lt] at this
    exact this
  · rw [ha]
    exact anomaly_count_eq line _
  · intro a hamem
    rw [ha] at hamem
    rcases List.mem_filterMap.mp hamem with ⟨t, -, hat⟩
    simp only [anomalyOpt] at hat
    cases hp : parse_money t with
    | none => simp only [hp] at hat; cases hat
    | some v =>
      simp only [hp] at hat
      by_cases hbig : MAX_PLAUSIBLE_AMOUNT < |v|
      · rw [if_pos hbig] at hat
        cases hat
        exact ⟨rfl, rfl, rfl⟩
      · rw [if_neg hbig] at hat
        cases hat

/-- C8 counterexample: the claim says returned amounts are absolute
values, but the tokenizing layer keeps the sign — on the line `-5.00` it
returns the negative amount `-5.00`. -/
theorem C8_counterexample_sign_retained :
    extract_money_values "-5.00" = [-5] ∧ ((-5 : ℚ) < 0) := by
  constructor
  · decide
  · norm_num

/-! ## Claim C7: two-amount disambiguation -/

/-- C7.  For a line whose tokenization yields exactly two (absolute)
amounts: second ≥ first gives `(this_period, ytd) = (first, second)`;
second < first with no YTD/period keyword discards the second amount,
giving `(first, null)`; a YTD keyword forces `(null, first)`; a period
keyword (with no YTD keyword) forces `(first, null)`. -/
theorem C7_two_amount_disambiguation (line : String) (a b : ℚ)
    (h : (extract_money_values (normalize_line line)).map (fun v => |v|) = [a, b]) :
    (a ≤ b →
      parse_amount_pair_from_line line
        = ⟨some a, some b, some (normalize_line line), false⟩)
    ∧ (b < a →
        hasAnyKw (upperStr (normalize_line line)) ["YTD", "YEAR TO DATE"] = true →
      parse_amount_pair_from_line line
        = ⟨none, some a, some (normalize_line line), false⟩)
    ∧ (b < a →
        hasAnyKw (upperStr (normalize_line line)) ["YTD", "YEAR TO DATE"] = false →
        hasAnyKw (upperStr (normalize_line line))
          ["THIS PERIOD", "CURRENT", "REGULAR", "EARNINGS"] = true →
      parse_amount_pair_from_line line
        = ⟨some a, none, some (normalize_line line), false⟩)
    ∧ (b < a →
        hasAnyKw (upperStr (normalize_line line)) ["YTD", "YEAR TO DATE"] = false →
        hasAnyKw (upperStr (normalize_line line))
          ["THIS PERIOD", "CURRENT", "REGULAR", "EARNINGS"] = false →
      parse_amount_pair_from_line line
        = ⟨some a, none, some (normalize_line line), false⟩) := by
  refine ⟨?_, ?_, ?_, ?_⟩
  · intro hab
    simp only [parse_amount_pair_from_line, h]
    rw [if_pos hab]
  · intro hab hytd
    simp only [parse_amount_pair_from_line, h]
    rw [if_neg (not_le.mpr hab), if_pos hytd]
  · intro hab hytd hper
    simp only [parse_amount_pair_from_line, h]
    rw [if_neg (not_le.mpr hab), if_neg (by simp [hytd]), if_pos hper]
  · intro hab hytd hper
    simp only [parse_amount_pair_from_line, h]
    rw [if_neg (not_le.mpr hab), if_neg (by simp [hytd]), if_neg (by simp [hper])]

/-- C7 witness: a line with amounts `[498.26, 18.28]` (second < first,
no keyword, as in the spec fixture) resolves to `this_period = 498.26`,
`ytd = null`. -/
theorem C7_two_amount_disambiguation_witness :
    ((extract_money_values
        (normalize_line "Tax 498.26 18.28")).map (fun v => |v|)
      = [mkRat 49826 100, mkRat 1828 100])
    ∧ parse_amount_pair_from_line "Tax 498.26 18.28"
      = ⟨some (mkRat 49826 100), none, some "Tax 498.26 18.28", false⟩ := by
  have h : (extract_money_values
      (normalize_line "Tax 498.26 18.28")).map (fun v => |v|)
      = [mkRat 49826 100, mkRat 1828 100] := by decide
  refine ⟨h, ?_⟩
  have h4 := (C7_two_amount_disambiguation _ _ _ h).2.2.2
    (by norm_num) (by decide) (by decide)
  rw [h4]
  have hn : normalize_line "Tax 498.26 18.28"
      = "Tax 498.26 18.28" := by decide
  rw [hn]


/-! ## C10: null YTD values render as zero cents -/

/-- A field whose effective YTD is null — the field is absent, not a
dict, or its `ytd` entry is absent or `None` — converts to `0` cents. -/
theorem to_cents_of_null_ytd (effective : PyDict) (f : String)
    (h : isNonePV (getYtdVal effective f) = true) :
    to_cents (dictGetD effective f .none) = 0 := by
  unfold getYtdVal at h
  unfold dictGetD
  cases hg : dictGet effective f with
  | none => rfl
  | some v =>
    rw [hg] at h
    cases v with
    | none => rfl
    | num q => rfl
    | str s => rfl
    | bool b => rfl
    | dict d =>
      replace h : isNonePV (dictGetD d "ytd" PyVal.none) = true := h
      show to_cents (.dict d) = 0
      simp only [to_cents]
      by_cases he : d.isEmpty = true
      · rw [if_pos he]
      · rw [if_neg he]
        cases hy : dictGet d "ytd" with
        | none => rfl
        | some w =>
          cases w with
          | none => rfl
          | num q =>
            simp only [dictGetD, hy, Option.getD_some, isNonePV] at h
            exact absurd h (by decide)
          | str s => rfl
          | bool b => rfl
          | dict d2 => rfl

/-- C10.  A filer whose effective YTD is null for gross pay, federal tax
or a state tax is rendered with integer `0` in `gross_pay_cents`,
`fed_tax_cents` and `state_tax_by_state_cents` — never null and never an
error — so appending such a filer's cents to the household accumulation
leaves the household total unchanged. -/
theorem C10_null_ytd_zero_cents (effective : PyDict) (st : PyDict)
    (k : String) (e : PyDict) (cents : List ℤ)
    (hg : isNonePV (getYtdVal effective "gross_pay") = true)
    (hf : isNonePV (getYtdVal effective "federal_income_tax") = true)
    (hst : dictGet effective "state_income_tax" = some (.dict st))
    (hk : (k, PyVal.dict e) ∈ st)
    (hke : isNonePV (dictGetD e "ytd" .none) = true) :
    filer_gross_cents effective = 0
    ∧ filer_fed_cents effective = 0
    ∧ (k, (0 : ℤ)) ∈ state_tax_by_state_cents effective
    ∧ household_total (cents ++ [filer_gross_cents effective]) = household_total cents := by
  have h1 : filer_gross_cents effective = 0 := to_cents_of_null_ytd _ _ hg
  have h2 : filer_fed_cents effective = 0 := to_cents_of_null_ytd _ _ hf
  refine ⟨h1, h2, ?_, ?_⟩
  · unfold state_tax_by_state_cents
    rw [hst]
    have hto : to_cents (PyVal.dict e) = 0 := by
      simp only [to_cents]
      by_cases he : e.isEmpty = true
      · rw [if_pos he]
      · rw [if_neg he]
        cases hy : dictGet e "ytd" with
        | none => rfl
        | some w =>
          cases w with
          | none => rfl
          | num q =>
            simp only [dictGetD, hy, Option.getD_some, isNonePV] at hke
            exact absurd hke (by decide)
          | str s2 => rfl
          | bool b => rfl
          | dict d2 => rfl
    exact List.mem_map.mpr ⟨(k, .dict e), hk, by simp [hto]⟩
  · rw [h1]
    unfold household_total
    rw [List.foldl_append]
    simp

/-- The concrete filer for the C10 witness: null gross-pay YTD, missing
federal field, one state entry without a YTD. -/
def effC10 : PyDict :=
  [("gross_pay", .dict [("ytd", .none), ("this_period", .num 10)]),
   ("state_income_tax", .dict [("AZ", .dict [("this_period", .num 5)])])]

/-- C10 witness: the null-YTD filer contributes zero cents everywhere and
leaves a household total of 3 cents unchanged. -/
theorem C10_null_ytd_zero_cents_witness :
    filer_gross_cents effC10 = 0
    ∧ filer_fed_cents effC10 = 0
    ∧ ("AZ", (0 : ℤ)) ∈ state_tax_by_state_cents effC10
    ∧ household_total ([3] ++ [filer_gross_cents effC10]) = household_total [3] :=
  C10_null_ytd_zero_cents effC10 [("AZ", .dict [("this_period", .num 5)])] "AZ"
    [("this_period", .num 5)] [3] (by decide) (by decide) rfl
    (List.mem_singleton.mpr rfl) (by decide)

/-! ## C6: household readiness -/

/-- A complete extraction that passes the filing-safety gate. -/
def extOK6 : PyDict :=
  [("gross_pay", .dict [("ytd", .num 1)]),
   ("federal_income_tax", .dict [("ytd", .num 1)]),
   ("social_security_tax", .dict [("ytd", .num 1)]),
   ("medicare_tax", .dict [("ytd", .num 1)])]

/-- C6 counterexample: a filer whose filing-safety gate passes but who
has no W-2 data gets status `REVIEW_NEEDED`, so `ready_to_file` is false
for a household whose every filer passed the safety gate —
`ready_to_file` is not the AND of the safety-gate results alone. -/
theorem C6_counterexample_missing_w2 :
    (validate_filing_safety extOK6 [] [] (mkRat 5 100)).passed = true
    ∧ filer_status (validate_filing_safety extOK6 [] [] (mkRat 5 100)).passed false
        = "REVIEW_NEEDED"
    ∧ household_ready
        [filer_status (validate_filing_safety extOK6 [] [] (mkRat 5 100)).passed false]
        = false := by decide

theorem household_ready_foldl (statuses : List String) (b : Bool) :
    statuses.foldl (fun acc s => if s ≠ "MATCH" then false else acc) b
      = (b && statuses.all (fun s => s == "MATCH")) := by
  induction statuses generalizing b with
  | nil => simp
  | cons s rest ih =>
    rw [List.foldl_cons, ih, List.all_cons]
    by_cases hs : s = "MATCH"
    · subst hs
      simp [Bool.and_assoc]
    · simp [hs]

/-- C6 (amended).  `ready_to_file` is the AND over all filers of
(filing-safety gate passed AND W-2 data present): each filer's pair of
booleans determines its status via `filer_status`, and the household
loop is ready exactly when every filer has both. -/
theorem C6_household_ready_amended (filers : List (Bool × Bool)) :
    household_ready (filers.map (fun f => filer_status f.1 f.2))
      = filers.all (fun f => f.1 && f.2) := by
  unfold household_ready
  rw [household_ready_foldl, Bool.true_and]
  induction filers with
  | nil => rfl
  | cons f rest ih =>
    rw [List.map_cons, List.all_cons, List.all_cons, ih]
    congr 1
    cases h1 : f.1 <;> cases h2 : f.2 <;> decide

/-! ## C9: corrections and their frame -/

theorem dictHasKey_of_dictGet (d : PyDict) (k : String) (x : PyVal)
    (h : dictGet d k = some x) : dictHasKey d k = true := by
  unfold dictGet at h
  unfold dictHasKey
  cases hf : d.find? (fun e => e.1 = k) with
  | none => rw [hf] at h; cases h
  | some e =>
    have hp := List.find?_some hf
    have hm := List.mem_of_find?_eq_some hf
    exact List.any_eq_true.mpr ⟨e, hm, hp⟩

theorem find?_setMap (d : PyDict) (k k2 : String) (v : PyVal) (h : k2 ≠ k) :
    (d.map (fun e => if e.1 = k then (e.1, v) else e)).find? (fun e => e.1 = k2)
      = d.find? (fun e => e.1 = k2) := by
  induction d with
  | nil => rfl
  | cons e rest ih =>
    rw [List.map_cons]
    by_cases he2 : e.1 = k2
    · have hek : ¬ e.1 = k := fun hh => h (he2 ▸ hh)
      rw [if_neg hek, List.find?_cons_of_pos _ (by simp [he2]),
        List.find?_cons_of_pos _ (by simp [he2])]
    · by_cases hek : e.1 = k
      · rw [if_pos hek,
          List.find?_cons_of_neg _ (by simp [he2]),
          List.find?_cons_of_neg _ (by simp [he2]), ih]
      · rw [if_neg hek,
          List.find?_cons_of_neg _ (by simp [he2]),
          List.find?_cons_of_neg _ (by simp [he2]), ih]

/-- Python dict assignment under one key leaves lookups at every other
key unchanged. -/
theorem dictGet_dictSet_ne (d : PyDict) (k k2 : String) (v : PyVal) (h : k2 ≠ k) :
    dictGet (dictSet d k v) k2 = dictGet d k2 := by
  unfold dictSet dictGet
  by_cases hk : dictHasKey d k = true
  · rw [if_pos hk, find?_setMap d k k2 v h]
  · rw [if_neg hk, List.find?_append]
    have hone : List.find? (fun e => e.1 = k2) [(k, v)] = Option.none := by
      rw [List.find?_cons_of_neg _ (by simp [Ne.symm h]), List.find?_nil]
    rw [hone]
    simp


/-- C9 counterexample: a `box1` correction does not change only the
`gross_pay` field's `ytd` value — it also adds `is_corrected` and
`correction_reason` entries to the `gross_pay` dict, which the original
extraction did not carry. -/
theorem C9_counterexample_extra_keys :
    dictGet (merge_corrections
        [("gross_pay", .dict [("ytd", .num 5), ("this_period", .num 2)]),
         ("federal_income_tax", .dict [("ytd", .num 3)])]
        [("box1", .dict [("value", .num 9)])] (.str "NOW")).1 "gross_pay"
      = some (.dict [("ytd", .num 9), ("this_period", .num 2),
                     ("is_corrected", .bool true),
                     ("correction_reason", .str "Manual Correction")])
    ∧ dictGet [("ytd", PyVal.num 5), ("this_period", PyVal.num 2)] "is_corrected"
      = Option.none :=
  ⟨rfl, rfl⟩

/-- C9 (amended).  A `box1` correction rewrites the `gross_pay` dict by
setting its `ytd` to the correction value and stamping `is_corrected` and
`correction_reason`, and appends one trace entry with the corrected
field, original value, corrected value, reason and timestamp; every other
top-level field is unchanged.  A bare `state_income_tax` correction
changes nothing and appends one warning trace entry. -/
theorem C9_corrections_frame_amended (extracted : PyDict) (c : PyDict)
    (d : PyDict) (now : PyVal)
    (hg : dictGet extracted "gross_pay" = some (.dict d))
    (hytd : dictHasKey d "ytd" = true) :
    merge_corrections extracted [("box1", .dict c)] now
      = (dictSet extracted "gross_pay"
           (.dict (dictSet (dictSet (dictSet d "ytd" (dictGetD c "value" .none))
                     "is_corrected" (.bool true))
                   "correction_reason" (dictGetD c "audit_reason" (.str "Manual Correction")))),
         [⟨"gross_pay", dictGetD d "ytd" .none, dictGetD c "value" .none,
           dictGetD c "audit_reason" (.str "Manual Correction"),
           dictGetD c "timestamp" now⟩])
    ∧ (∀ k2, k2 ≠ "gross_pay" →
        dictGet (merge_corrections extracted [("box1", .dict c)] now).1 k2
          = dictGet extracted k2)
    ∧ merge_corrections extracted [("state_income_tax", .dict c)] now
        = (extracted,
           [⟨"state_income_tax", .none, .none, .str bareStateWarning,
             dictGetD c "timestamp" now⟩]) := by
  have hhk : dictHasKey extracted "gross_pay" = true := dictHasKey_of_dictGet _ _ _ hg
  have hbox : merge_corrections extracted [("box1", .dict c)] now
      = (dictSet extracted "gross_pay"
           (.dict (dictSet (dictSet (dictSet d "ytd" (dictGetD c "value" .none))
                     "is_corrected" (.bool true))
                   "correction_reason" (dictGetD c "audit_reason" (.str "Manual Correction")))),
         [⟨"gross_pay", dictGetD d "ytd" .none, dictGetD c "value" .none,
           dictGetD c "audit_reason" (.str "Manual Correction"),
           dictGetD c "timestamp" now⟩]) := by
    show mergeCorrectionStep now (extracted, []) ("box1", .dict c) = _
    have hisk : isStateTaxKey "gross_pay" = false := by decide
    simp [mergeCorrectionStep, boxMap, hisk, hhk, hg, hytd]
  refine ⟨hbox, fun k2 hk2 => ?_, ?_⟩
  · rw [hbox]
    exact dictGet_dictSet_ne _ _ _ _ hk2
  · show mergeCorrectionStep now (extracted, []) ("state_income_tax", .dict c) = _
    simp [mergeCorrectionStep, boxMap]


/-- C9 witness: the amended frame theorem at a concrete extraction — the
`box1` correction rewrites `gross_pay` and its trace entry, leaves
`federal_income_tax` untouched, and the bare key only appends the
warning entry. -/
theorem C9_corrections_frame_amended_witness :
    merge_corrections
        [("gross_pay", .dict [("ytd", .num 5), ("this_period", .num 2)]),
         ("federal_income_tax", .dict [("ytd", .num 3)])]
        [("box1", .dict [("value", .num 9)])] (.str "NOW")
      = ([("gross_pay", .dict [("ytd", .num 9), ("this_period", .num 2),
             ("is_corrected", .bool true), ("correction_reason", .str "Manual Correction")]),
          ("federal_income_tax", .dict [("ytd", .num 3)])],
         [⟨"gross_pay", .num 5, .num 9, .str "Manual Correction", .str "NOW"⟩])
    ∧ dictGet (merge_corrections
        [("gross_pay", .dict [("ytd", .num 5), ("this_period", .num 2)]),
         ("federal_income_tax", .dict [("ytd", .num 3)])]
        [("box1", .dict [("value", .num 9)])] (.str "NOW")).1 "federal_income_tax"
      = dictGet [("gross_pay", PyVal.dict [("ytd", .num 5), ("this_period", .num 2)]),
         ("federal_income_tax", PyVal.dict [("ytd", .num 3)])] "federal_income_tax"
    ∧ merge_corrections
        [("gross_pay", .dict [("ytd", .num 5), ("this_period", .num 2)]),
         ("federal_income_tax", .dict [("ytd", .num 3)])]
        [("state_income_tax", .dict [("value", .num 9)])] (.str "NOW")
      = ([("gross_pay", .dict [("ytd", .num 5), ("this_period", .num 2)]),
          ("federal_income_tax", .dict [("ytd", .num 3)])],
         [⟨"state_income_tax", .none, .none, .str bareStateWarning, .str "NOW"⟩]) := by
  have h := C9_corrections_frame_amended
    [("gross_pay", .dict [("ytd", .num 5), ("this_period", .num 2)]),
     ("federal_income_tax", .dict [("ytd", .num 3)])]
    [("value", .num 9)] [("ytd", .num 5), ("this_period", .num 2)] (.str "NOW") rfl rfl
  exact ⟨h.1, h.2.1 "federal_income_tax" (by decide), h.2.2⟩


/-! ## C4: zero-period YTD promotion -/

/-- The five named amount-pair fields of a snapshot, as selectors so the
promotion statement can quantify over every field (state entries are
quantified separately by their code). -/
inductive NamedField where
  | gross_pay
  | federal_income_tax
  | social_security_tax
  | medicare_tax
  | k401_contrib

def fieldGet : NamedField → PaystubSnapshot → AmountPair
  | .gross_pay => (·.gross_pay)
  | .federal_income_tax => (·.federal_income_tax)
  | .social_security_tax => (·.social_security_tax)
  | .medicare_tax => (·.medicare_tax)
  | .k401_contrib => (·.k401_contrib)

/-- The statutory YTD fields the final snapshot is missing, in the
source's order (`run_consistency_checks`, annual.py). -/
def missing_final_fields (final : PaystubSnapshot) : List String :=
  (if final.federal_income_tax.ytd = none then ["federal_income_tax_ytd"] else [])
    ++ (if final.social_security_tax.ytd = none then ["social_security_tax_ytd"] else [])
    ++ (if final.medicare_tax.ytd = none then ["medicare_tax_ytd"] else [])
    ++ (if final.gross_pay.ytd = none then ["gross_pay_ytd"] else [])

/-- The final missing-value check of `run_consistency_checks`
(annual.py lines 673-691): one critical `missing_final_values` issue
when the last snapshot of the list it is given still misses a statutory
YTD. -/
def missing_final_issues (canonical : List PaystubSnapshot) : List ConsistencyIssue :=
  match canonical.getLast? with
  | none => []
  | some final =>
    if missing_final_fields final = [] then []
    else [⟨"critical", "missing_final_values",
          "Missing final YTD values: "
            ++ String.intercalate ", " (missing_final_fields final)⟩]

theorem promotePair_accept (prior : Option ℚ) (pair : AmountPair) (v : ℚ)
    (hytd : pair.ytd = none) (hthis : pair.this_period = some v) (hpos : 0 < v)
    (hmono : ∀ p, prior = some p → p ≤ v) :
    promotePair prior pair = (⟨none, some v, pair.source_line, true⟩, some true) := by
  simp only [promotePair, hytd, hthis, if_pos hpos]
  cases hp : prior with
  | none => rfl
  | some p => simp [hmono p hp]

theorem promotePair_reject (prior : Option ℚ) (pair : AmountPair) (v p : ℚ)
    (hytd : pair.ytd = none) (hthis : pair.this_period = some v) (hpos : 0 < v)
    (hp : prior = some p) (hlt : v < p) :
    promotePair prior pair = (pair, some false) := by
  simp only [promotePair, hytd, hthis, if_pos hpos, hp]
  simp [not_le.mpr hlt]

/-- A successful `lookupState` names a member of the assoc list. -/
theorem lookupState_mem (l : List (String × AmountPair)) (code : String)
    (pair : AmountPair) (h : lookupState l code = some pair) :
    (code, pair) ∈ l := by
  unfold lookupState at h
  cases hf : l.find? (fun e => e.1 = code) with
  | none => rw [hf] at h; cases h
  | some e0 =>
    rw [hf] at h
    simp only [Option.map_some', Option.some.injEq] at h
    have hm := List.mem_of_find?_eq_some hf
    have hp := List.find?_some hf
    simp only [decide_eq_true_eq] at hp
    obtain ⟨a, b⟩ := e0
    rw [show code = a from hp.symm, show pair = b from h.symm]
    exact hm

/-- `lookupState` commutes with a key-preserving value map. -/
theorem lookupState_map_keyed (l : List (String × AmountPair)) (code : String)
    (pair : AmountPair) (g : String → AmountPair → AmountPair)
    (h : lookupState l code = some pair) :
    lookupState (l.map (fun e => (e.1, g e.1 e.2))) code = some (g code pair) := by
  induction l with
  | nil => cases h
  | cons e rest ih =>
    unfold lookupState at h ih ⊢
    by_cases hk : e.1 = code
    · rw [List.find?_cons_of_pos _ (by simp [hk])] at h
      rw [List.map_cons, List.find?_cons_of_pos _ (by simp [hk])]
      simp only [Option.map_some', Option.some.injEq] at h
      simp only [Option.map_some', Option.some.injEq]
      rw [hk, h]
    · rw [List.find?_cons_of_neg _ (by simp [hk])] at h
      rw [List.map_cons, List.find?_cons_of_neg _ (by simp [hk])]
      exact ih h

/-- C4.  When the last snapshot's gross-pay `this_period` is `0.00`, the
promotion stage passes every other snapshot through and, for EVERY field
— each of the five named amount pairs and every state entry — whose
`ytd` is null and whose `this_period` is positive, promotes
`this_period` into `ytd` (nulling `this_period`) exactly when the value
is monotonic against the nearest prior same-field YTD: an accepted
promotion emits `zero_period_ytd_promoted`, a rejected one emits
`zero_period_ytd_promotion_rejected` leaving the pair unchanged.  The
stage runs before the final missing-value check: that check reads the
promoted snapshots, so once the promoted last snapshot carries the four
statutory YTDs no critical `missing_final_values` issue is raised. -/
theorem C4_zero_period_promotion (snapshots : List PaystubSnapshot)
    (tolerance : ℚ) (last : PaystubSnapshot)
    (hlast : snapshots.getLast? = some last)
    (hzero : last.gross_pay.this_period = some 0) :
    (promote_ytd_candidates snapshots tolerance).1.length = snapshots.length
    ∧ (promote_ytd_candidates snapshots tolerance).1.dropLast = snapshots.dropLast
    ∧ (∀ (i : NamedField) (v : ℚ),
        (fieldGet i last).ytd = none → (fieldGet i last).this_period = some v →
        0 < v →
        ((∀ p, priorFieldYtd snapshots.dropLast (fun s => (fieldGet i s).ytd)
              = some p → p ≤ v) →
          ((promote_ytd_candidates snapshots tolerance).1.getLast?).map (fieldGet i)
            = some ⟨none, some v, (fieldGet i last).source_line, true⟩
          ∧ "zero_period_ytd_promoted"
              ∈ ((promote_ytd_candidates snapshots tolerance).2.map (·.code)))
        ∧ (∀ p, priorFieldYtd snapshots.dropLast (fun s => (fieldGet i s).ytd)
              = some p → v < p →
          ((promote_ytd_candidates snapshots tolerance).1.getLast?).map (fieldGet i)
            = some (fieldGet i last)
          ∧ "zero_period_ytd_promotion_rejected"
              ∈ ((promote_ytd_candidates snapshots tolerance).2.map (·.code))))
    ∧ (∀ (code : String) (pair : AmountPair) (v : ℚ),
        lookupState last.state_income_tax code = some pair →
        pair.ytd = none → pair.this_period = some v → 0 < v →
        ((∀ p, priorFieldYtd snapshots.dropLast
              (fun s => (lookupState s.state_income_tax code).bind (fun q => q.ytd))
              = some p → p ≤ v) →
          ((promote_ytd_candidates snapshots tolerance).1.getLast?).map
              (fun s => lookupState s.state_income_tax code)
            = some (some ⟨none, some v, pair.source_line, true⟩)
          ∧ "zero_period_ytd_promoted"
              ∈ ((promote_ytd_candidates snapshots tolerance).2.map (·.code)))
        ∧ (∀ p, priorFieldYtd snapshots.dropLast
              (fun s => (lookupState s.state_income_tax code).bind (fun q => q.ytd))
              = some p → v < p →
          ((promote_ytd_candidates snapshots tolerance).1.getLast?).map
              (fun s => lookupState s.state_income_tax code)
            = some (some pair)
          ∧ "zero_period_ytd_promotion_rejected"
              ∈ ((promote_ytd_candidates snapshots tolerance).2.map (·.code))))
    ∧ (∀ promoted,
        (promote_ytd_candidates snapshots tolerance).1.getLast? = some promoted →
        promoted.federal_income_tax.ytd ≠ none →
        promoted.social_security_tax.ytd ≠ none →
        promoted.medicare_tax.ytd ≠ none →
        promoted.gross_pay.ytd ≠ none →
        missing_final_issues (promote_ytd_candidates snapshots tolerance).1 = []) := by
  have hne : snapshots ≠ [] := by
    intro h
    rw [h] at hlast
    cases hlast
  have hlen : 1 ≤ snapshots.length := by
    cases snapshots with
    | nil => exact absurd rfl hne
    | cons a l => simp
  simp only [promote_ytd_candidates, hlast, if_pos hzero]
  refine ⟨?_, ?_, ?_, ?_, ?_⟩
  · rw [List.length_append, List.length_dropLast]
    simp
    omega
  · rw [List.dropLast_concat]
  · intro i v hytd hthis hpos
    cases i <;>
      (simp only [fieldGet] at hytd hthis ⊢
       refine ⟨fun hmono => ?_, fun p hp hlt => ?_⟩
       · simp only [fieldGet] at hmono
         have hfp := promotePair_accept _ _ v hytd hthis hpos hmono
         rw [List.getLast?_concat]
         exact ⟨by simp [hfp], by simp [hfp, promotionIssues]⟩
       · simp only [fieldGet] at hp
         have hfp := promotePair_reject _ _ v p hytd hthis hpos hp hlt
         rw [List.getLast?_concat]
         exact ⟨by simp [hfp], by simp [hfp, promotionIssues]⟩)
  · intro code pair v hlook hytd hthis hpos
    have hmem : (code, pair) ∈ last.state_income_tax := lookupState_mem _ _ _ hlook
    refine ⟨fun hmono => ?_, fun p hp hlt => ?_⟩
    · have hfp := promotePair_accept _ _ v hytd hthis hpos hmono
      have hl := lookupState_map_keyed last.state_income_tax code pair
        (fun c pr => (promotePair (priorFieldYtd snapshots.dropLast
          (fun s => (lookupState s.state_income_tax c).bind (fun q => q.ytd))) pr).1) hlook
      rw [List.getLast?_concat]
      constructor
      · simp only [Option.map_some']
        rw [show (List.map (fun e => (e.1, e.2.1))
            (List.map (fun e => (e.1, promotePair (priorFieldYtd snapshots.dropLast
              (fun s => (lookupState s.state_income_tax e.1).bind (fun q => q.ytd))) e.2))
              last.state_income_tax))
          = last.state_income_tax.map (fun e => (e.1,
              (promotePair (priorFieldYtd snapshots.dropLast
                (fun s => (lookupState s.state_income_tax e.1).bind (fun q => q.ytd))) e.2).1))
          from by rw [List.map_map]; rfl]
        have hl2 : lookupState (last.state_income_tax.map (fun e => (e.1,
            (promotePair (priorFieldYtd snapshots.dropLast
              (fun s => (lookupState s.state_income_tax e.1).bind (fun q => q.ytd))) e.2).1)))
            code
            = some ((promotePair (priorFieldYtd snapshots.dropLast
                (fun s => (lookupState s.state_income_tax code).bind (fun q => q.ytd))) pair).1) := hl
        rw [hl2, hfp]
      · refine List.mem_map.mpr
          ⟨⟨"warning", "zero_period_ytd_promoted",
            "Promoted this_period into YTD for " ++ ("state_income_tax_" ++ code)
              ++ " on the terminal zero-period statement."⟩,
           List.mem_append_right _ ?_, rfl⟩
        refine List.mem_flatMap.mpr
          ⟨(code, promotePair (priorFieldYtd snapshots.dropLast
              (fun s => (lookupState s.state_income_tax code).bind (fun q => q.ytd))) pair),
           List.mem_map.mpr ⟨(code, pair), hmem, rfl⟩, ?_⟩
        simp [hfp, promotionIssues]
    · have hfp := promotePair_reject _ _ v p hytd hthis hpos hp hlt
      have hl := lookupState_map_keyed last.state_income_tax code pair
        (fun c pr => (promotePair (priorFieldYtd snapshots.dropLast
          (fun s => (lookupState s.state_income_tax c).bind (fun q => q.ytd))) pr).1) hlook
      rw [List.getLast?_concat]
      constructor
      · simp only [Option.map_some']
        rw [show (List.map (fun e => (e.1, e.2.1))
            (List.map (fun e => (e.1, promotePair (priorFieldYtd snapshots.dropLast
              (fun s => (lookupState s.state_income_tax e.1).bind (fun q => q.ytd))) e.2))
              last.state_income_tax))
          = last.state_income_tax.map (fun e => (e.1,
              (promotePair (priorFieldYtd snapshots.dropLast
                (fun s => (lookupState s.state_income_tax e.1).bind (fun q => q.ytd))) e.2).1))
          from by rw [List.map_map]; rfl]
        have hl2 : lookupState (last.state_income_tax.map (fun e => (e.1,
            (promotePair (priorFieldYtd snapshots.dropLast
              (fun s => (lookupState s.state_income_tax e.1).bind (fun q => q.ytd))) e.2).1)))
            code
            = some ((promotePair (priorFieldYtd snapshots.dropLast
                (fun s => (lookupState s.state_income_tax code).bind (fun q => q.ytd))) pair).1) := hl
        rw [hl2, hfp]
      · refine List.mem_map.mpr
          ⟨⟨"warning", "zero_period_ytd_promotion_rejected",
            "Rejected non-monotonic zero-period YTD promotion for "
              ++ ("state_income_tax_" ++ code) ++ "."⟩,
           List.mem_append_right _ ?_, rfl⟩
        refine List.mem_flatMap.mpr
          ⟨(code, promotePair (priorFieldYtd snapshots.dropLast
              (fun s => (lookupState s.state_income_tax code).bind (fun q => q.ytd))) pair),
           List.mem_map.mpr ⟨(code, pair), hmem, rfl⟩, ?_⟩
        simp [hfp, promotionIssues]
  · intro promoted hplast h1 h2 h3 h4
    have hfields : missing_final_fields promoted = [] := by
      simp only [missing_final_fields]
      rw [if_neg h1, if_neg h2, if_neg h3, if_neg h4]
      rfl
    simp only [missing_final_issues, hplast, hfields]
    rfl

/-- The two-snapshot promotion fixture: a November stub with all YTDs,
then a terminal December statement with gross `this_period = 0.00` and a
federal `this_period` of `14716.86` with no YTD. -/
def c4s : List PaystubSnapshot := [
  ⟨"a.pdf", some "2025-11-28",
   ⟨some 3000, some 100000, none, false⟩,
   ⟨some 450, some 14000, none, false⟩,
   ⟨some 120, some 6400, none, false⟩,
   ⟨some 30, some 1500, none, false⟩,
   ⟨none, none, none, false⟩,
   [("AZ", ⟨some 50, some 450, none, false⟩)], []⟩,
  ⟨"b.pdf", some "2025-12-31",
   ⟨some 0, some 100000, none, false⟩,
   ⟨some (mkRat 1471686 100), none, none, false⟩,
   ⟨some (mkRat 646843 100), none, none, false⟩,
   ⟨some (mkRat 151278 100), none, none, false⟩,
   ⟨none, none, none, false⟩,
   [("AZ", ⟨some (mkRat 49826 100), none, none, false⟩)], []⟩]

/-- C4 witness: on the fixture the stage keeps both snapshots, promotes
the terminal federal and AZ-state `this_period`s into their null YTDs
(monotonic against the November YTDs `14000` and `450`), emits
`zero_period_ytd_promoted`, and the final missing-value check — which
runs on the promoted snapshots — reports nothing, although on the raw
snapshots it would raise `missing_final_values`. -/
theorem C4_zero_period_promotion_witness :
    (promote_ytd_candidates c4s (mkRat 1 100)).1.length = 2
    ∧ ((promote_ytd_candidates c4s (mkRat 1 100)).1.getLast?).map
        (fieldGet .federal_income_tax)
        = some ⟨none, some (mkRat 1471686 100), none, true⟩
    ∧ ((promote_ytd_candidates c4s (mkRat 1 100)).1.getLast?).map
        (fun s => lookupState s.state_income_tax "AZ")
        = some (some ⟨none, some (mkRat 49826 100), none, true⟩)
    ∧ "zero_period_ytd_promoted"
        ∈ ((promote_ytd_candidates c4s (mkRat 1 100)).2.map (·.code))
    ∧ missing_final_issues c4s ≠ []
    ∧ missing_final_issues (promote_ytd_candidates c4s (mkRat 1 100)).1 = [] := by
  have h := C4_zero_period_promotion c4s (mkRat 1 100)
    (c4s.get ⟨1, by decide⟩) (by decide) (by decide)
  have hfed := (h.2.2.1 .federal_income_tax (mkRat 1471686 100)
      (by decide) (by decide) (by decide)).1
    (fun p hp => by
      rw [show priorFieldYtd c4s.dropLast
          (fun s => (fieldGet .federal_income_tax s).ytd) = some 14000 from by decide] at hp
      injection hp with hh
      rw [← hh]
      decide)
  have haz := (h.2.2.2.1 "AZ" ⟨some (mkRat 49826 100), none, none, false⟩
      (mkRat 49826 100) (by decide) (by decide) (by decide) (by decide)).1
    (fun p hp => by
      rw [show priorFieldYtd c4s.dropLast
          (fun s => (lookupState s.state_income_tax "AZ").bind (fun q => q.ytd))
          = some 450 from by decide] at hp
      injection hp with hh
      rw [← hh]
      decide)
  refine ⟨h.1, hfed.1, haz.1, hfed.2, by decide, ?_⟩
  exact h.2.2.2.2
    ⟨"b.pdf", some "2025-12-31",
     ⟨some 0, some 100000, none, false⟩,
     ⟨none, some (mkRat 1471686 100), none, true⟩,
     ⟨none, some (mkRat 646843 100), none, true⟩,
     ⟨none, some (mkRat 151278 100), none, true⟩,
     ⟨none, none, none, false⟩,
     [("AZ", ⟨none, some (mkRat 49826 100), none, true⟩)], []⟩
    (by decide) (by decide) (by decide) (by decide) (by decide)


/-! ## C5: deduplication by pay date -/

theorem dedupKeysAux_sub (l : List String) : ∀ (seen : List String),
    ∀ x ∈ dedupKeysAux seen l, x ∈ l := by
  induction l with
  | nil => intro seen x hx; cases hx
  | cons a rest ih =>
    intro seen x hx
    simp only [dedupKeysAux] at hx
    by_cases hc : seen.contains a = true
    · rw [if_pos hc] at hx
      exact List.mem_cons_of_mem a (ih seen x hx)
    · rw [if_neg hc] at hx
      rcases List.mem_cons.1 hx with rfl | hx2
      · exact List.mem_cons_self _ _
      · exact List.mem_cons_of_mem a (ih (a :: seen) x hx2)

theorem dedupKeysAux_nodup (l : List String) : ∀ (seen : List String),
    (dedupKeysAux seen l).Nodup
      ∧ ∀ x ∈ dedupKeysAux seen l, seen.contains x = false := by
  induction l with
  | nil =>
    intro seen
    exact ⟨List.nodup_nil, fun x hx => absurd hx (List.not_mem_nil x)⟩
  | cons a rest ih =>
    intro seen
    simp only [dedupKeysAux]
    by_cases hc : seen.contains a = true
    · rw [if_pos hc]
      exact ih seen
    · rw [if_neg hc]
      obtain ⟨hnd, hns⟩ := ih (a :: seen)
      constructor
      · refine List.nodup_cons.2 ⟨?_, hnd⟩
        intro hmem
        have h2 := hns a hmem
        simp [List.contains_cons] at h2
      · intro x hx
        rcases List.mem_cons.1 hx with rfl | hx2
        · exact Bool.not_eq_true _ ▸ hc
        · have h2 := hns x hx2
          simp only [List.contains_cons, Bool.or_eq_false_iff] at h2
          exact h2.2

theorem sortedDates_nodup (snapshots : List PaystubSnapshot) :
    (sortedDates snapshots).Nodup := by
  have h := (dedupKeysAux_nodup (snapshots.filterMap (·.pay_date)) []).1
  exact ((stableSortBy_perm strLe _).nodup_iff).mpr h

theorem qualityLe_total (x y : PaystubSnapshot) :
    qualityLe x y = true ∨ qualityLe y x = true :=
  ltEqLe_total (ltEqLe_total (ltEqLe_total (ltEqLe_total strLe_total)))
    (snapshot_quality_tuple x) (snapshot_quality_tuple y)

theorem qualityLe_trans (x y z : PaystubSnapshot)
    (h1 : qualityLe x y = true) (h2 : qualityLe y z = true) :
    qualityLe x z = true :=
  ltEqLe_trans (ltEqLe_trans (ltEqLe_trans (ltEqLe_trans strLe_trans)))
    (snapshot_quality_tuple x) (snapshot_quality_tuple y)
    (snapshot_quality_tuple z) h1 h2

theorem bestOfGroup_mem (g : List PaystubSnapshot) (hg : g ≠ []) :
    bestOfGroup g ∈ g := by
  have hne : stableSortBy qualityLe g ≠ [] := by
    intro h
    have hp := stableSortBy_perm qualityLe g
    rw [h] at hp
    exact hg hp.symm.eq_nil
  exact (stableSortBy_perm qualityLe g).subset (lastD_mem dummySnapshot _ hne)

theorem bestOfGroup_max (g : List PaystubSnapshot) (x : PaystubSnapshot)
    (hx : x ∈ g) : qualityLe x (bestOfGroup g) = true :=
  stableSortBy_lastD_max qualityLe qualityLe_total
    (fun a b c => qualityLe_trans a b c) g dummySnapshot x hx

theorem groupOf_ne_nil (snapshots : List PaystubSnapshot) (d : String)
    (hd : d ∈ sortedDates snapshots) : groupOf snapshots d ≠ [] := by
  have h1 : d ∈ dedupKeys (snapshots.filterMap (·.pay_date)) :=
    ((stableSortBy_perm strLe _).mem_iff).mp hd
  have h2 : d ∈ snapshots.filterMap (·.pay_date) :=
    dedupKeysAux_sub _ [] d h1
  obtain ⟨s, hs, hsd⟩ := List.mem_filterMap.1 h2
  intro hnil
  have hmem : s ∈ groupOf snapshots d := by
    unfold groupOf
    exact List.mem_filter.2 ⟨hs, by simp [hsd]⟩
  rw [hnil] at hmem
  cases hmem

theorem bestOfGroup_mem_dedup (snapshots : List PaystubSnapshot) (d : String)
    (hd : d ∈ sortedDates snapshots) :
    bestOfGroup (groupOf snapshots d) ∈ (deduplicate_by_pay_date snapshots).1 := by
  have hne := groupOf_ne_nil snapshots d hd
  show bestOfGroup (groupOf snapshots d)
      ∈ stableSortBy snapSortLe (_ ++ snapshots.filter (fun s => s.pay_date = none))
  refine ((stableSortBy_perm snapSortLe _).mem_iff).mpr (List.mem_append_left _ ?_)
  refine List.mem_flatMap.mpr ⟨d, hd, ?_⟩
  by_cases hlen : (groupOf snapshots d).length = 1
  · rw [if_pos hlen]
    exact bestOfGroup_mem _ hne
  · rw [if_neg hlen]
    exact List.mem_singleton.mpr rfl

theorem filterMap_if_le (f : String → ℕ) (g : String → ConsistencyIssue)
    (l : List String) :
    l.filterMap (fun d => if f d ≤ 1 then none else some (g d))
      = (l.filter (fun d => decide (2 ≤ f d))).map g := by
  induction l with
  | nil => rfl
  | cons a rest ih =>
    simp only [List.filterMap_cons, List.filter_cons]
    by_cases h : f a ≤ 1
    · rw [if_pos h]
      have h2 : decide (2 ≤ f a) = false := by
        simp only [decide_eq_false_iff_not]
        omega
      rw [h2, ih]
      simp
    · rw [if_neg h]
      have h2 : decide (2 ≤ f a) = true := by
        simp only [decide_eq_true_eq]
        omega
      rw [h2, ih]
      simp

/-- C5.  Deduplication groups snapshots by pay date; the canonical
snapshot of each date's group is a member that is maximal under the
quality tuple (so a singleton group passes through unchanged), it
survives into the output, and the issue list carries exactly one
`duplicate_pay_date` warning per distinct date whose group has two or
more snapshots, naming the kept file and every ignored file. -/
theorem C5_dedup_canonical (snapshots : List PaystubSnapshot) (d : String)
    (hd : d ∈ sortedDates snapshots) :
    groupOf snapshots d ≠ []
    ∧ bestOfGroup (groupOf snapshots d) ∈ groupOf snapshots d
    ∧ (∀ x ∈ groupOf snapshots d,
        qualityLe x (bestOfGroup (groupOf snapshots d)) = true)
    ∧ (∀ s, groupOf snapshots d = [s] → s ∈ (deduplicate_by_pay_date snapshots).1)
    ∧ bestOfGroup (groupOf snapshots d) ∈ (deduplicate_by_pay_date snapshots).1
    ∧ (sortedDates snapshots).Nodup
    ∧ (deduplicate_by_pay_date snapshots).2
        = ((sortedDates snapshots).filter
            (fun d2 => decide (2 ≤ (groupOf snapshots d2).length))).map
            (fun d2 => duplicateIssue d2 (groupOf snapshots d2))
    ∧ (duplicateIssue d (groupOf snapshots d)).severity = "warning"
    ∧ (duplicateIssue d (groupOf snapshots d)).code = "duplicate_pay_date"
    ∧ (duplicateIssue d (groupOf snapshots d)).message
        = "Found " ++ toString (groupOf snapshots d).length ++ " paystubs for " ++ d
          ++ ". Using `" ++ (bestOfGroup (groupOf snapshots d)).file
          ++ "` as canonical and ignoring: "
          ++ String.intercalate ", " (((groupOf snapshots d).filter
               (fun s => s.file ≠ (bestOfGroup (groupOf snapshots d)).file)).map (·.file)) := by
  have hne := groupOf_ne_nil snapshots d hd
  refine ⟨hne, bestOfGroup_mem _ hne, fun x hx => bestOfGroup_max _ x hx,
    ?_, bestOfGroup_mem_dedup snapshots d hd, sortedDates_nodup snapshots,
    ?_, rfl, rfl, rfl⟩
  · intro s hs
    have hmem := bestOfGroup_mem_dedup snapshots d hd
    rw [hs] at hmem
    exact hmem
  · exact filterMap_if_le (fun d2 => (groupOf snapshots d2).length)
      (fun d2 => duplicateIssue d2 (groupOf snapshots d2)) (sortedDates snapshots)


/-- Duplicate-date fixture: two snapshots share `2025-01-10` (one with no
YTDs, one with a gross YTD) and a third has its own date. -/
def snapPoor : PaystubSnapshot :=
  ⟨"poor.pdf", some "2025-01-10", emptyAmountPair, emptyAmountPair,
   emptyAmountPair, emptyAmountPair, emptyAmountPair, [], []⟩

def snapRich : PaystubSnapshot :=
  ⟨"rich.pdf", some "2025-01-10", ⟨some 100, some 1000, none, false⟩,
   emptyAmountPair, emptyAmountPair, emptyAmountPair, emptyAmountPair, [], []⟩

def dd5 : List PaystubSnapshot :=
  [snapPoor, snapRich,
   ⟨"c.pdf", some "2025-01-24", emptyAmountPair, emptyAmountPair,
    emptyAmountPair, emptyAmountPair, emptyAmountPair, [], []⟩]

/-- C5 witness: on the fixture the more complete snapshot is canonical
for the shared date, it beats its sibling under the quality order, it
survives deduplication, the sorted date keys have no duplicates, and the
issue list is the single `duplicate_pay_date` warning for that date. -/
theorem C5_dedup_canonical_witness :
    bestOfGroup (groupOf dd5 "2025-01-10") ∈ groupOf dd5 "2025-01-10"
    ∧ qualityLe snapPoor (bestOfGroup (groupOf dd5 "2025-01-10")) = true
    ∧ bestOfGroup (groupOf dd5 "2025-01-10") ∈ (deduplicate_by_pay_date dd5).1
    ∧ (sortedDates dd5).Nodup
    ∧ (deduplicate_by_pay_date dd5).2
        = ((sortedDates dd5).filter
            (fun d2 => decide (2 ≤ (groupOf dd5 d2).length))).map
            (fun d2 => duplicateIssue d2 (groupOf dd5 d2)) := by
  have h := C5_dedup_canonical dd5 "2025-01-10" (by decide)
  exact ⟨h.2.1, h.2.2.1 snapPoor (by decide), h.2.2.2.2.1,
    h.2.2.2.2.2.1, h.2.2.2.2.2.2.1⟩


/-! ## C2: the repair stage re-run -/

/-- Fold steps that can only grow the issue list, and that change nothing
when they do not: the whole fold inherits both properties. -/
theorem foldl_issue_mono {σ : Type} {β : Type} (J : σ → ℕ) (f : σ → β → σ)
    (hf : ∀ acc x, J acc ≤ J (f acc x) ∧ (J (f acc x) = J acc → f acc x = acc)) :
    ∀ (l : List β) (acc : σ),
      J acc ≤ J (l.foldl f acc)
        ∧ (J (l.foldl f acc) = J acc → l.foldl f acc = acc) := by
  intro l
  induction l with
  | nil => intro acc; exact ⟨le_refl _, fun _ => rfl⟩
  | cons x xs ih =>
    intro acc
    obtain ⟨h1, h2⟩ := hf acc x
    obtain ⟨h3, _⟩ := ih (f acc x)
    rw [List.foldl_cons]
    refine ⟨le_trans h1 h3, fun heq => ?_⟩
    have e1 : J (f acc x) = J acc := le_antisymm (heq ▸ h3) h1
    have e2 : f acc x = acc := h2 e1
    rw [e2] at heq ⊢
    exact (ih acc).2 heq

theorem repairAtPosition_mono (tolerance : ℚ) (state : String) (indices : List ℕ)
    (acc : List PaystubSnapshot × List ConsistencyIssue × NotesMap) (pi : ℕ × ℕ) :
    acc.2.1.length ≤ (repairAtPosition tolerance state indices acc pi).2.1.length
    ∧ ((repairAtPosition tolerance state indices acc pi).2.1.length = acc.2.1.length
        → repairAtPosition tolerance state indices acc pi = acc) := by
  obtain ⟨snaps, issues, notes⟩ := acc
  simp only [repairAtPosition]
  repeat' split
  all_goals first
    | exact ⟨le_refl _, fun _ => rfl⟩
    | (constructor
       · simp
       · intro heq
         exfalso
         rw [List.length_append] at heq
         simp at heq)

theorem repairStateWalk_mono (tolerance : ℚ) (state : String) (indices : List ℕ)
    (acc : List PaystubSnapshot × List ConsistencyIssue × NotesMap) :
    acc.2.1.length ≤ (repairStateWalk tolerance state indices acc).2.1.length
    ∧ ((repairStateWalk tolerance state indices acc).2.1.length = acc.2.1.length
        → repairStateWalk tolerance state indices acc = acc) :=
  foldl_issue_mono (fun a => a.2.1.length) (repairAtPosition tolerance state indices)
    (repairAtPosition_mono tolerance state indices) indices.enum acc

/-- Every state pair of the snapshot list has `is_ytd_confirmed = false`
(the invariant `clone_snapshots` establishes and repairs preserve). -/
def allUnconf (snaps : List PaystubSnapshot) : Prop :=
  ∀ s ∈ snaps, ∀ e ∈ s.state_income_tax, e.2.is_ytd_confirmed = false

theorem state_repair_step_unconfirmed (tolerance : ℚ) (pair : AmountPair)
    (prev next : Option ℚ) (peers : List ℚ) :
    ∀ res, state_repair_step tolerance pair prev next peers = some res →
      res.1.is_ytd_confirmed = false := by
  intro res
  simp only [state_repair_step]
  repeat' split
  all_goals intro h
  all_goals first
    | exact Option.noConfusion h
    | (obtain rfl := Option.some.inj h; rfl)

theorem map_clone_pairs_id (l : List (String × AmountPair))
    (h : ∀ e ∈ l, e.2.is_ytd_confirmed = false) :
    l.map (fun e =>
        (e.1, (⟨e.2.this_period, e.2.ytd, e.2.source_line, false⟩ : AmountPair))) = l := by
  induction l with
  | nil => rfl
  | cons e rest ih =>
    rw [List.map_cons, ih (fun x hx => h x (List.mem_cons_of_mem e hx))]
    congr 1
    obtain ⟨k, tp, yd, sl, conf⟩ := e
    have hc : conf = false := h (k, ⟨tp, yd, sl, conf⟩) (List.mem_cons_self _ _)
    subst hc
    rfl

theorem clone_snapshots_id : ∀ (snaps : List PaystubSnapshot),
    allUnconf snaps → clone_snapshots snaps = snaps := by
  intro snaps
  induction snaps with
  | nil => intro _; rfl
  | cons s rest ih =>
    intro h
    show ({ s with state_income_tax := s.state_income_tax.map (fun e =>
        (e.1, (⟨e.2.this_period, e.2.ytd, e.2.source_line, false⟩ : AmountPair))) }
      :: clone_snapshots rest) = s :: rest
    rw [ih (fun x hx e he => h x (List.mem_cons_of_mem s hx) e he)]
    congr 1
    rw [map_clone_pairs_id s.state_income_tax (h s (List.mem_cons_self _ _))]

theorem foldl_preserves {σ : Type} {β : Type} (P : σ → Prop) (f : σ → β → σ)
    (hf : ∀ acc x, P acc → P (f acc x)) :
    ∀ (l : List β) (acc : σ), P acc → P (l.foldl f acc) := by
  intro l
  induction l with
  | nil => intro acc h; exact h
  | cons x xs ih => intro acc h; exact ih (f acc x) (hf acc x h)

theorem repairAtPosition_unconf (tolerance : ℚ) (state : String) (indices : List ℕ)
    (acc : List PaystubSnapshot × List ConsistencyIssue × NotesMap) (pi : ℕ × ℕ)
    (h : allUnconf acc.1) :
    allUnconf (repairAtPosition tolerance state indices acc pi).1 := by
  obtain ⟨snaps, issues, notes⟩ := acc
  simp only [repairAtPosition]
  split
  next => exact h
  next snapshot hs =>
    split
    next => exact h
    next pair hp =>
      split
      next => exact h
      next current hy =>
        split
        next => exact h
        next newPair corrected reason hr =>
          intro s hs2 e he
          rcases List.mem_or_eq_of_mem_set hs2 with hmem | rfl
          · exact h s hmem e he
          · unfold setState at he
            obtain ⟨e0, he0, hfe⟩ := List.mem_map.1 he
            by_cases hek : e0.1 = state
            · rw [if_pos hek] at hfe
              rw [← hfe]
              exact state_repair_step_unconfirmed tolerance pair
                (prevStateYtd snaps state indices pi.1 snapshot.pay_date)
                (nextStateYtd snaps state indices pi.1 snapshot.pay_date)
                (sameCyclePeerYtds snaps state indices pi.2 snapshot.pay_date)
                (newPair, corrected, reason) hr
            · rw [if_neg hek] at hfe
              rw [← hfe]
              exact h snapshot (List.get?_mem hs) e0 he0

theorem repair_output_unconf (snapshots : List PaystubSnapshot) (tolerance : ℚ) :
    allUnconf (verify_and_repair_state_ytd_anomalies snapshots tolerance).1 := by
  simp only [verify_and_repair_state_ytd_anomalies]
  by_cases he : snapshots.isEmpty = true
  · rw [if_pos he]
    intro s hs e hee
    rw [List.isEmpty_iff.mp he] at hs
    cases hs
  · rw [if_neg he]
    have hstart : allUnconf (clone_snapshots snapshots) := by
      intro s hs e hee
      unfold clone_snapshots at hs
      obtain ⟨s0, hs0, rfl⟩ := List.mem_map.1 hs
      obtain ⟨e0, he0, rfl⟩ := List.mem_map.1 hee
      rfl
    exact foldl_preserves (fun acc => allUnconf acc.1)
      (fun acc state => repairStateWalk tolerance state (indicesFor state acc.1) acc)
      (fun acc state hacc =>
        foldl_preserves (fun a => allUnconf a.1)
          (repairAtPosition tolerance state (indicesFor state acc.1))
          (repairAtPosition_unconf tolerance state (indicesFor state acc.1))
          (indicesFor state acc.1).enum acc hacc)
      (statesOf (clone_snapshots snapshots))
      (clone_snapshots snapshots, [], []) hstart

/-- C2 (amended).  Re-running the state-YTD repair stage on its own
output is a no-op exactly on the runs that report no issues: whenever the
second run's issue list is empty, its snapshots equal its input and it
records no per-file notes.  (Unconditional idempotence fails; see the
counterexample.) -/
theorem C2_repair_second_run_amended (snapshots : List PaystubSnapshot) (tolerance : ℚ)
    (h : (verify_and_repair_state_ytd_anomalies
            (verify_and_repair_state_ytd_anomalies snapshots tolerance).1 tolerance).2.1
          = []) :
    verify_and_repair_state_ytd_anomalies
        (verify_and_repair_state_ytd_anomalies snapshots tolerance).1 tolerance
      = ((verify_and_repair_state_ytd_anomalies snapshots tolerance).1, [], []) := by
  set first := (verify_and_repair_state_ytd_anomalies snapshots tolerance).1 with hfirst
  have hun : allUnconf first := repair_output_unconf snapshots tolerance
  have hclone : clone_snapshots first = first := clone_snapshots_id first hun
  simp only [verify_and_repair_state_ytd_anomalies] at h ⊢
  by_cases he : first.isEmpty = true
  · rw [if_pos he]
  · rw [if_neg he] at h ⊢
    rw [hclone] at h ⊢
    have hm := foldl_issue_mono (fun a => a.2.1.length)
      (fun acc state => repairStateWalk tolerance state (indicesFor state acc.1) acc)
      (fun acc state => repairStateWalk_mono tolerance state (indicesFor state acc.1) acc)
      (statesOf first) (first, [], [])
    exact hm.2 (by rw [h])


/-- Four-row fixture on which the repair stage is not idempotent: the
first run repairs the 2025-02-07 revision pair as an OCR underflow,
and the projected YTD it writes gives the second run a fresh spike to
repair. -/
def c2snaps : List PaystubSnapshot := [
  ⟨"a", some "2025-01-10", emptyAmountPair, emptyAmountPair, emptyAmountPair,
   emptyAmountPair, emptyAmountPair, [("ST", ⟨none, some 1000, none, false⟩)], []⟩,
  ⟨"b", some "2025-01-24", emptyAmountPair, emptyAmountPair, emptyAmountPair,
   emptyAmountPair, emptyAmountPair, [("ST", ⟨none, some 100, none, false⟩)], []⟩,
  ⟨"c", some "2025-02-07", emptyAmountPair, emptyAmountPair, emptyAmountPair,
   emptyAmountPair, emptyAmountPair, [("ST", ⟨none, some 90, none, false⟩)], []⟩,
  ⟨"d", some "2025-02-07", emptyAmountPair, emptyAmountPair, emptyAmountPair,
   emptyAmountPair, emptyAmountPair, [("ST", ⟨none, some 2000, none, false⟩)], []⟩]

/-- C2 counterexample: running the repair stage a second time on its own
output is not a no-op — the second run emits a fresh issue. -/
theorem C2_counterexample_not_idempotent :
    (verify_and_repair_state_ytd_anomalies
       (verify_and_repair_state_ytd_anomalies c2snaps (mkRat 5 100)).1
       (mkRat 5 100)).2.1 ≠ [] := by decide

/-- The Scenario-B fixture: an AZ spike between two agreeing neighbors. -/
def sB2 : List PaystubSnapshot := [
  ⟨"s1", some "2025-11-14", emptyAmountPair, emptyAmountPair, emptyAmountPair,
   emptyAmountPair, emptyAmountPair,
   [("AZ", ⟨none, some (mkRat 49826 100), some "AZ State Income Tax", false⟩)], []⟩,
  ⟨"s2", some "2025-11-28", emptyAmountPair, emptyAmountPair, emptyAmountPair,
   emptyAmountPair, emptyAmountPair,
   [("AZ", ⟨some (mkRat 49826 100), some (mkRat 572233 100),
            some "AZ State Income Tax", false⟩)], []⟩,
  ⟨"s3", some "2025-12-15", emptyAmountPair, emptyAmountPair, emptyAmountPair,
   emptyAmountPair, emptyAmountPair,
   [("AZ", ⟨none, some (mkRat 49826 100), some "AZ State Income Tax", false⟩)], []⟩]

/-- C2 witness: on the Scenario-B fixture the second repair run reports
no issues, and the amended theorem then gives that it changes nothing. -/
theorem C2_repair_second_run_amended_witness :
    verify_and_repair_state_ytd_anomalies
        (verify_and_repair_state_ytd_anomalies sB2 (mkRat 1 100)).1 (mkRat 1 100)
      = ((verify_and_repair_state_ytd_anomalies sB2 (mkRat 1 100)).1, [], []) :=
  C2_repair_second_run_amended sB2 (mkRat 1 100) (by decide)


/-! ## C3: the neighbor-consistency repair rule -/

/-- Scenario-B variant for the C3 counterexample: the spike row carries
`this_period = 498.27`, one cent away from the corrected YTD. -/
def sC3 : List PaystubSnapshot := [
  ⟨"t1", some "2025-11-14", emptyAmountPair, emptyAmountPair, emptyAmountPair,
   emptyAmountPair, emptyAmountPair,
   [("AZ", ⟨none, some (mkRat 49826 100), some "AZ State Income Tax", false⟩)], []⟩,
  ⟨"t2", some "2025-11-28", emptyAmountPair, emptyAmountPair, emptyAmountPair,
   emptyAmountPair, emptyAmountPair,
   [("AZ", ⟨some (mkRat 49827 100), some (mkRat 572233 100),
            some "AZ State Income Tax", false⟩)], []⟩,
  ⟨"t3", some "2025-12-15", emptyAmountPair, emptyAmountPair, emptyAmountPair,
   emptyAmountPair, emptyAmountPair,
   [("AZ", ⟨none, some (mkRat 49826 100), some "AZ State Income Tax", false⟩)], []⟩]

/-- C3 counterexample: at tolerance `0`, the repair stage still nulls a
`this_period` of `498.27` against the corrected YTD `498.26` — the
distance `0.01` exceeds the tolerance, so nulling is not governed by the
tolerance alone (the code uses `max(tolerance, 0.01)`). -/
theorem C3_counterexample_nulling_beyond_tolerance :
    ((verify_and_repair_state_ytd_anomalies sC3 0).1.get? 1).map
        (fun s => lookupState s.state_income_tax "AZ")
      = some (some ⟨none, some (mkRat 49826 100), some "AZ State Income Tax", false⟩)
    ∧ ¬(|qSub (mkRat 49827 100) (mkRat 49826 100)| ≤ (0 : ℚ)) := by decide

/-- C3 (amended).  For an occurrence whose chronological previous and
next same-state YTDs (same-pay-date siblings excluded) exist and differ
by at most `1.00`, if the current YTD exceeds the quantized midpoint by
more than `250.00` and exceeds four times that midpoint, the repair step
replaces the YTD with the quantized midpoint, nulls `this_period`
exactly when it is within `max(tolerance, 0.01)` of the corrected YTD
and the evidence line has no minus sign, and appends exactly one warning
issue with code `state_ytd_outlier_corrected`. -/
theorem C3_neighbor_consistency_amended (tolerance : ℚ) (state : String)
    (indices : List ℕ) (snaps : List PaystubSnapshot)
    (issues : List ConsistencyIssue) (notes : NotesMap)
    (pos idx : ℕ) (snapshot : PaystubSnapshot) (pair : AmountPair) (p n c anchor : ℚ)
    (hsnap : snaps.get? idx = some snapshot)
    (hpair : lookupState snapshot.state_income_tax state = some pair)
    (hc : pair.ytd = some c)
    (hprev : prevStateYtd snaps state indices pos snapshot.pay_date = some p)
    (hnext : nextStateYtd snaps state indices pos snapshot.pay_date = some n)
    (hclose : |qSub p n| ≤ STATE_YTD_NEIGHBOR_TOLERANCE)
    (hanchor : anchor = quantize2 (qDiv (qAdd p n) 2))
    (habs : qAdd anchor STATE_YTD_OUTLIER_MIN_ABS < c)
    (hmul : qMul anchor STATE_YTD_SPIKE_MULTIPLIER < c) :
    repairAtPosition tolerance state indices (snaps, issues, notes) (pos, idx)
      = (snaps.set idx
          { snapshot with
            state_income_tax :=
              setState snapshot.state_income_tax state
                ⟨pair.this_period.bind (fun t =>
                    if |qSub t anchor| ≤ max tolerance (mkRat 1 100)
                        ∧ noMinusEvidence pair.source_line then none
                    else some t),
                 some anchor, pair.source_line, false⟩ },
         issues ++ [⟨"warning", "state_ytd_outlier_corrected",
            repairMessage state (repairTarget snapshot) c anchor "neighbor_consistency"⟩],
         recordNote notes snapshot.file (repairNoteText state c anchor)) := by
  subst hanchor
  have hstep : state_repair_step tolerance pair
      (prevStateYtd snaps state indices pos snapshot.pay_date)
      (nextStateYtd snaps state indices pos snapshot.pay_date)
      (sameCyclePeerYtds snaps state indices idx snapshot.pay_date)
      = some (⟨pair.this_period.bind (fun t =>
                  if |qSub t (quantize2 (qDiv (qAdd p n) 2))| ≤ max tolerance (mkRat 1 100)
                      ∧ noMinusEvidence pair.source_line then none
                  else some t),
               some (quantize2 (qDiv (qAdd p n) 2)), pair.source_line, false⟩,
              quantize2 (qDiv (qAdd p n) 2), "neighbor_consistency") := by
    simp only [state_repair_step, hc, hprev, hnext]
    rw [if_pos hclose, if_pos ⟨habs, hmul⟩]
    cases pair.this_period <;> rfl
  simp only [repairAtPosition, hsnap, hpair, hc, hstep]
  simp only [repairIssue, repairIssueCode]
  rw [if_neg (by decide : ¬ ("neighbor_consistency" : String) = "state_ytd_underflow_corrected")]


/-- C3 witness: the Scenario-B spike row (neighbors `498.26`/`498.26`,
current `5722.33`, `this_period = 498.26`) is repaired to the midpoint
with `this_period` nulled and exactly the one expected warning. -/
theorem C3_neighbor_consistency_amended_witness :
    repairAtPosition (mkRat 1 100) "AZ" [0, 1, 2] (sB2, [], []) (1, 1)
      = ([⟨"s1", some "2025-11-14", emptyAmountPair, emptyAmountPair, emptyAmountPair,
           emptyAmountPair, emptyAmountPair,
           [("AZ", ⟨none, some (mkRat 49826 100), some "AZ State Income Tax", false⟩)], []⟩,
          ⟨"s2", some "2025-11-28", emptyAmountPair, emptyAmountPair, emptyAmountPair,
           emptyAmountPair, emptyAmountPair,
           [("AZ", ⟨none, some (mkRat 49826 100), some "AZ State Income Tax", false⟩)], []⟩,
          ⟨"s3", some "2025-12-15", emptyAmountPair, emptyAmountPair, emptyAmountPair,
           emptyAmountPair, emptyAmountPair,
           [("AZ", ⟨none, some (mkRat 49826 100), some "AZ State Income Tax", false⟩)], []⟩],
         [⟨"warning", "state_ytd_outlier_corrected",
           "AZ state tax YTD on 2025-11-28 was auto-corrected from $5,722.33 to $498.26 (neighbor_consistency)."⟩],
         [("s2", ["AZ: $5,722.33 -> $498.26"])]) := by
  rw [C3_neighbor_consistency_amended (mkRat 1 100) "AZ" [0, 1, 2] sB2 [] [] 1 1
    ⟨"s2", some "2025-11-28", emptyAmountPair, emptyAmountPair, emptyAmountPair,
     emptyAmountPair, emptyAmountPair,
     [("AZ", ⟨some (mkRat 49826 100), some (mkRat 572233 100),
              some "AZ State Income Tax", false⟩)], []⟩
    ⟨some (mkRat 49826 100), some (mkRat 572233 100), some "AZ State Income Tax", false⟩
    (mkRat 49826 100) (mkRat 49826 100) (mkRat 572233 100) (mkRat 49826 100)
    (by decide) (by decide) (by decide) (by decide) (by decide) (by decide)
    (by decide) (by decide) (by decide)]
  decide

end Paystub
